import Mathlib

/-! limap: image registry and line reconstruction

A shallow embedding of `limap/base/image_collection.cc` and
`limap/base/line_reconstruction.cc`.

* `std::map<int, V>` is `StdMap V`: an association list whose keys are strictly
  ascending, with `insert` (no overwrite), `assign` (`m[k] = v`), `at_`
  (throwing lookup) and `count`.
* `std::vector<T>` is `List T`; a position of a vector converted to the `int` key
  of a map is the integer of the same value (vector lengths fit in `int`).
* A member function that can throw returns `Except Error _`; a mutating member
  function returns the outcome together with the registry after the call.
* The collaborator types that are not part of these two files (Camera,
  CameraPose, CameraImage, CameraView, LineTrack, the minimal parameterizations)
  are modelled from the specification; their payloads are uninterpreted. The
  external routines (record conversions, `Camera::set_max_image_dim`,
  `Camera::IsUndistorted`, segment extraction, minimal parameterizations) are
  parameters and are taken to return.
* `CHECK_EQ` and `THROW_CHECK_EQ` are checks of every build: a failed one ends the call
  with an error. The plain `assert` of the constructor from a nested record depends on
  the build: the flag `ndebug` says whether `NDEBUG` is defined, in which case the
  `assert` is compiled out.
* An index outside a `std::vector` is `none`.
* `read_image` only forwards to the external pixel decoding and is left out.
-/

namespace Limap

/-! ## `std::map<int, V>` -/

/-- Ordered insertion of `(k, v)` into an ascending entry list; an entry already
stored under `k` is kept (`std::map::insert`). -/
def insertEntry {V : Type} (k : Int) (v : V) : List (Int × V) → List (Int × V)
  | [] => [(k, v)]
  | (k', v') :: t =>
    if k < k' then (k, v) :: (k', v') :: t
    else if k = k' then (k', v') :: t
    else (k', v') :: insertEntry k v t

/-- Insert-or-overwrite of `(k, v)` in an ascending entry list (`m[k] = v`). -/
def assignEntry {V : Type} (k : Int) (v : V) : List (Int × V) → List (Int × V)
  | [] => [(k, v)]
  | (k', v') :: t =>
    if k < k' then (k, v) :: (k', v') :: t
    else if k = k' then (k, v) :: t
    else (k', v') :: assignEntry k v t

/-- The value stored under `k`, if any. -/
def findEntry {V : Type} (k : Int) : List (Int × V) → Option V
  | [] => none
  | (k', v') :: t => if k = k' then some v' else findEntry k t

/-- Keys of an entry list, in storage order. -/
def entryKeys {V : Type} (l : List (Int × V)) : List Int := l.map Prod.fst

/-- Strictly ascending keys. -/
def KeysAscending {V : Type} (l : List (Int × V)) : Prop :=
  (entryKeys l).Pairwise (fun a b => a < b)

theorem entryKeys_insertEntry {V : Type} (k : Int) (v : V) (l : List (Int × V)) (x : Int) :
    x ∈ entryKeys (insertEntry k v l) ↔ x = k ∨ x ∈ entryKeys l := by
  induction l with
  | nil => simp [insertEntry, entryKeys]
  | cons hd t ih =>
    obtain ⟨k', v'⟩ := hd
    unfold insertEntry
    by_cases h1 : k < k'
    · simp [h1, entryKeys]
    · by_cases h2 : k = k'
      · subst h2
        simp [entryKeys]
      · simp only [h1, h2, if_false]
        simp only [entryKeys, List.map_cons, List.mem_cons] at ih ⊢
        rw [ih]
        tauto

theorem entryKeys_assignEntry {V : Type} (k : Int) (v : V) (l : List (Int × V)) (x : Int) :
    x ∈ entryKeys (assignEntry k v l) ↔ x = k ∨ x ∈ entryKeys l := by
  induction l with
  | nil => simp [assignEntry, entryKeys]
  | cons hd t ih =>
    obtain ⟨k', v'⟩ := hd
    unfold assignEntry
    by_cases h1 : k < k'
    · simp [h1, entryKeys]
    · by_cases h2 : k = k'
      · subst h2
        simp [entryKeys]
      · simp only [h1, h2, if_false]
        simp only [entryKeys, List.map_cons, List.mem_cons] at ih ⊢
        rw [ih]
        tauto

theorem keysAscending_insertEntry {V : Type} (k : Int) (v : V) (l : List (Int × V))
    (h : KeysAscending l) : KeysAscending (insertEntry k v l) := by
  induction l with
  | nil => simp [insertEntry, KeysAscending, entryKeys]
  | cons hd t ih =>
    obtain ⟨k', v'⟩ := hd
    have ht : KeysAscending t := by
      simp only [KeysAscending, entryKeys, List.map_cons, List.pairwise_cons] at h ⊢
      exact h.2
    have hhd : ∀ x ∈ entryKeys t, k' < x := by
      simp only [KeysAscending, entryKeys, List.map_cons, List.pairwise_cons] at h ⊢
      exact h.1
    unfold insertEntry
    by_cases h1 : k < k'
    · simp only [h1, if_true]
      simp only [KeysAscending, entryKeys, List.map_cons, List.pairwise_cons] at h ⊢
      refine ⟨?_, h⟩
      intro x hx
      simp only [List.mem_cons] at hx
      rcases hx with hx | hx
      · omega
      · have := h.1 x hx
        omega
    · by_cases h2 : k = k'
      · subst h2
        simp only [h1, if_true, if_false]
        exact h
      · simp only [h1, h2, if_false]
        have ih' := ih ht
        simp only [KeysAscending, entryKeys, List.map_cons, List.pairwise_cons] at ih' ⊢
        refine ⟨?_, ih'⟩
        intro x hx
        have hx' : x ∈ entryKeys (insertEntry k v t) := hx
        rw [entryKeys_insertEntry] at hx'
        rcases hx' with hx' | hx'
        · omega
        · exact hhd x hx'

theorem keysAscending_assignEntry {V : Type} (k : Int) (v : V) (l : List (Int × V))
    (h : KeysAscending l) : KeysAscending (assignEntry k v l) := by
  induction l with
  | nil => simp [assignEntry, KeysAscending, entryKeys]
  | cons hd t ih =>
    obtain ⟨k', v'⟩ := hd
    have ht : KeysAscending t := by
      simp only [KeysAscending, entryKeys, List.map_cons, List.pairwise_cons] at h ⊢
      exact h.2
    have hhd : ∀ x ∈ entryKeys t, k' < x := by
      simp only [KeysAscending, entryKeys, List.map_cons, List.pairwise_cons] at h ⊢
      exact h.1
    unfold assignEntry
    by_cases h1 : k < k'
    · simp only [h1, if_true]
      simp only [KeysAscending, entryKeys, List.map_cons, List.pairwise_cons] at h ⊢
      refine ⟨?_, h⟩
      intro x hx
      simp only [List.mem_cons] at hx
      rcases hx with hx | hx
      · omega
      · have := h.1 x hx
        omega
    · by_cases h2 : k = k'
      · subst h2
        simp only [h1, if_true, if_false]
        simp only [KeysAscending, entryKeys, List.map_cons, List.pairwise_cons] at h ⊢
        exact h
      · simp only [h1, h2, if_false]
        have ih' := ih ht
        simp only [KeysAscending, entryKeys, List.map_cons, List.pairwise_cons] at ih' ⊢
        refine ⟨?_, ih'⟩
        intro x hx
        have hx' : x ∈ entryKeys (assignEntry k v t) := hx
        rw [entryKeys_assignEntry] at hx'
        rcases hx' with hx' | hx'
        · omega
        · exact hhd x hx'

/-- The container `std::map<int, V>`: entries in ascending key order, keys unique. -/
structure StdMap (V : Type) where
  entries : List (Int × V)
  ascending : KeysAscending entries

namespace StdMap

variable {V : Type}

/-- A default-constructed (or cleared) map. -/
def empty : StdMap V := ⟨[], List.Pairwise.nil⟩

/-- The keys in iteration order (`begin()` to `end()`). -/
def keys (m : StdMap V) : List Int := entryKeys m.entries

/-- The member `count(k)`: the number of entries stored under `k`. -/
def count (m : StdMap V) (k : Int) : Nat :=
  (m.entries.filter (fun e => decide (e.1 = k))).length

/-- The member `insert(std::make_pair(k, v))`: no effect when `k` is present. -/
def insert (m : StdMap V) (k : Int) (v : V) : StdMap V :=
  ⟨insertEntry k v m.entries, keysAscending_insertEntry k v m.entries m.ascending⟩

/-- The statement `m[k] = v`. -/
def assign (m : StdMap V) (k : Int) (v : V) : StdMap V :=
  ⟨assignEntry k v m.entries, keysAscending_assignEntry k v m.entries m.ascending⟩

/-- The lookup behind `at(k)` and `operator[]`: the value stored under `k`. -/
def find? (m : StdMap V) (k : Int) : Option V := findEntry k m.entries

/-- The expression `m[k]`: an absent key is first inserted with the
default-constructed value `dflt`; yields the map afterwards and the referenced value. -/
def subscript (m : StdMap V) (k : Int) (dflt : V) : StdMap V × V :=
  let m1 := m.insert k dflt
  (m1, (m1.find? k).getD dflt)

end StdMap

theorem entryKeys_mapValues {V W : Type} (f : V → W) (l : List (Int × V)) :
    entryKeys (l.map (fun e => (e.1, f e.2))) = entryKeys l := by
  simp [entryKeys, List.map_map, Function.comp_def]

/-- Applies `f` in place to every stored value (a loop over `it->second`). -/
def StdMap.mapValues {V W : Type} (f : V → W) (m : StdMap V) : StdMap W :=
  ⟨m.entries.map (fun e => (e.1, f e.2)), by
    have h := m.ascending
    unfold KeysAscending at h ⊢
    rw [entryKeys_mapValues]
    exact h⟩

theorem StdMap.ext_entries {V : Type} {a b : StdMap V} (h : a.entries = b.entries) : a = b := by
  cases a
  cases b
  cases h
  rfl

instance {V : Type} [DecidableEq V] : DecidableEq (StdMap V) := fun a b =>
  if h : a.entries = b.entries then isTrue (StdMap.ext_entries h)
  else isFalse (fun e => h (congrArg StdMap.entries e))

/-! ## Collaborator value types -/

/-- The ways a call can fail. -/
inductive Error where
  /-- A failed `THROW_CHECK_EQ` or `CHECK_EQ`. -/
  | check_failed
  /-- The exception `std::out_of_range` of `std::map::at`. -/
  | out_of_range
  /-- A failed `assert`. -/
  | assert_failed
deriving DecidableEq, Repr

deriving instance DecidableEq for Except

/-- Modelled from the spec: the external Camera, an "opaque intrinsic model keyed by an
integer id" whose equality is structural. The intrinsic model is an uninterpreted
parameter list. -/
structure Camera where
  camera_id : Int
  model : List Int
deriving DecidableEq, Repr

/-- Modelled from the spec: `Camera::CameraId()`. -/
def Camera.CameraId (c : Camera) : Int := c.camera_id

/-- Modelled from the spec: the external CameraPose (rotation and translation), an
uninterpreted parameter list. -/
structure CameraPose where
  params : List Int
deriving DecidableEq, Repr

/-- Modelled from the spec: the external CameraImage record "(camera-id, pose, name)";
`cam_id` and `pose` are the public members read by the registry. -/
structure CameraImage where
  cam_id : Int
  pose : CameraPose
  image_name_ : String
deriving DecidableEq, Repr

/-- Modelled from the spec: `CameraImage::image_name()`. -/
def CameraImage.image_name (im : CameraImage) : String := im.image_name_

/-- Modelled from the spec: `CameraImage::SetImageName`, which replaces the image name. -/
def CameraImage.SetImageName (im : CameraImage) (new_name : String) : CameraImage :=
  { im with image_name_ := new_name }

/-- Modelled from the spec: the default-constructed CameraImage. Only `operator[]` on an
absent key produces it, and every use of `operator[]` on `images` is guarded. -/
def CameraImage.default_constructed : CameraImage := ⟨0, ⟨[]⟩, "none"⟩

/-- Modelled from the spec: the external CameraView, "the combination of a Camera +
CameraPose + an image name", built by `CameraView(cam, pose, image_name)`. -/
structure CameraView where
  cam : Camera
  pose : CameraPose
  image_name_ : String
deriving DecidableEq, Repr

/-- Modelled from the spec: `CameraView::image_name()`. -/
def CameraView.image_name (v : CameraView) : String := v.image_name_

/-- Modelled from the spec: the conversion `CameraImage(camview)`, which keeps the view's
camera id, pose and image name. -/
def CameraImage.of_camview (camview : CameraView) : CameraImage :=
  ⟨camview.cam.CameraId, camview.pose, camview.image_name⟩

/-! ## `ImageCollection` -/

/-- The registry: `cameras` and `images`, both keyed by integer id. -/
structure ImageCollection where
  cameras : StdMap Camera
  images : StdMap CameraImage
deriving DecidableEq

/-- The outcome of a mutating member function and the registry after the call. -/
abbrev Mutation := Except Error Unit × ImageCollection

/-- The nested record read and written by the registry: the optional sub-records
"cameras" and "images", each keyed by integer id, with records of type `D`. -/
structure PyDict (D : Type) where
  cameras : Option (StdMap D)
  images : Option (StdMap D)

/-- The member `std::map::at`, which throws `std::out_of_range` for an absent key. -/
def StdMap.at_ {V : Type} (m : StdMap V) (k : Int) : Except Error V :=
  match m.find? k with
  | some v => .ok v
  | none => .error .out_of_range

/-- The loop body of `init_cameras_from_vector` and `init_images_from_vector`: inserts
`input[id]` under `id` for `id = start, start + 1, ...`. -/
def insert_from_vector {V : Type} : List V → Nat → StdMap V → StdMap V
  | [], _, m => m
  | x :: rest, id, m => insert_from_vector rest (id + 1) (m.insert (Int.ofNat id) x)

namespace ImageCollection

/-- The member `init_cameras_from_vector`, as the new value of `cameras`. -/
def init_cameras_from_vector (input_cameras : List Camera) : StdMap Camera :=
  insert_from_vector input_cameras 0 StdMap.empty

/-- The member `init_images_from_vector`, as the new value of `images`. -/
def init_images_from_vector (input_images : List CameraImage) : StdMap CameraImage :=
  insert_from_vector input_images 0 StdMap.empty

/-- The constructor `ImageCollection(std::map<int, Camera>, std::vector<CameraImage>)`. -/
def of_map_vector (input_cameras : StdMap Camera) (input_images : List CameraImage) :
    ImageCollection :=
  ⟨input_cameras, init_images_from_vector input_images⟩

/-- The constructor `ImageCollection(std::vector<Camera>, std::map<int, CameraImage>)`. -/
def of_vector_map (input_cameras : List Camera) (input_images : StdMap CameraImage) :
    ImageCollection :=
  ⟨init_cameras_from_vector input_cameras, input_images⟩

/-- The constructor `ImageCollection(std::vector<Camera>, std::vector<CameraImage>)`. -/
def of_vectors (input_cameras : List Camera) (input_images : List CameraImage) :
    ImageCollection :=
  ⟨init_cameras_from_vector input_cameras, init_images_from_vector input_images⟩

/-- The member `exist_cam`. -/
def exist_cam (r : ImageCollection) (cam_id : Int) : Bool :=
  decide (r.cameras.count cam_id = 1)

/-- The member `exist_image`. -/
def exist_image (r : ImageCollection) (img_id : Int) : Bool :=
  decide (r.images.count img_id = 1)

/-- The loop of the constructor `ImageCollection(std::vector<CameraView>)`, from
position `img_id` on, over the registry built so far. A failed `CHECK_EQ` ends it. -/
def of_camviews_loop : List CameraView → Nat → ImageCollection → Except Error ImageCollection
  | [], _, r => .ok r
  | camview :: rest, img_id, r =>
    let r1 : ImageCollection :=
      { r with images := r.images.insert (Int.ofNat img_id) (CameraImage.of_camview camview) }
    let cam_id := camview.cam.CameraId
    if r1.exist_cam cam_id = true then
      match r1.cameras.at_ cam_id with
      | .error e => .error e
      | .ok stored =>
        if decide (stored = camview.cam) = true then of_camviews_loop rest (img_id + 1) r1
        else .error .check_failed
    else
      of_camviews_loop rest (img_id + 1)
        { r1 with cameras := r1.cameras.insert camview.cam.CameraId camview.cam }

/-- The constructor `ImageCollection(std::vector<CameraView>)`. -/
def of_camviews (camviews : List CameraView) : Except Error ImageCollection :=
  of_camviews_loop camviews 0 ⟨StdMap.empty, StdMap.empty⟩

/-- The statement `assert(cond)` of `<cassert>`: compiled out when `NDEBUG` is defined
(`ndebug = true`), otherwise a false `cond` aborts. -/
def c_assert (ndebug : Bool) (cond : Bool) : Except Error Unit :=
  if ndebug = true then .ok ()
  else if cond = true then .ok ()
  else .error .assert_failed

/-- The camera loop of the constructor `ImageCollection(py::dict)`, in the build given by
`ndebug`. -/
def load_cameras {D : Type} (ndebug : Bool) (camera_of_dict : D → Camera) :
    List (Int × D) → StdMap Camera → Except Error (StdMap Camera)
  | [], cameras => .ok cameras
  | (cam_id, d) :: rest, cameras =>
    let cam := camera_of_dict d
    match c_assert ndebug (decide (cam_id = cam.CameraId)) with
    | .error e => .error e
    | .ok _ => load_cameras ndebug camera_of_dict rest (cameras.insert cam_id cam)

/-- The image loop of the constructor `ImageCollection(py::dict)`. -/
def load_images {D : Type} (image_of_dict : D → CameraImage) :
    List (Int × D) → StdMap CameraImage → StdMap CameraImage
  | [], images => images
  | (img_id, d) :: rest, images =>
    load_images image_of_dict rest (images.insert img_id (image_of_dict d))

/-- The constructor `ImageCollection(py::dict)`, in the build given by `ndebug`
(`true` when `NDEBUG` is defined). `camera_of_dict` and `image_of_dict`
are the external conversions `Camera(py::dict)` and `CameraImage(py::dict)`. -/
def of_dict {D : Type} (ndebug : Bool) (camera_of_dict : D → Camera)
    (image_of_dict : D → CameraImage) (dict : PyDict D) : Except Error ImageCollection :=
  let dictvec_cameras : StdMap D :=
    match dict.cameras with
    | some m => m
    | none => StdMap.empty
  match load_cameras ndebug camera_of_dict dictvec_cameras.entries StdMap.empty with
  | .error e => .error e
  | .ok cameras =>
    let dictvec_images : StdMap D :=
      match dict.images with
      | some m => m
      | none => StdMap.empty
    .ok ⟨cameras, load_images image_of_dict dictvec_images.entries StdMap.empty⟩

/-- The member `get_cameras`. -/
def get_cameras (r : ImageCollection) : List Camera := r.cameras.entries.map Prod.snd

/-- The member `get_cam_ids`. -/
def get_cam_ids (r : ImageCollection) : List Int := r.cameras.entries.map Prod.fst

/-- The member `get_images`. -/
def get_images (r : ImageCollection) : List CameraImage := r.images.entries.map Prod.snd

/-- The member `get_img_ids`. -/
def get_img_ids (r : ImageCollection) : List Int := r.images.entries.map Prod.fst

/-- The member `cam`. -/
def cam (r : ImageCollection) (cam_id : Int) : Except Error Camera :=
  if r.exist_cam cam_id = true then r.cameras.at_ cam_id else .error .check_failed

/-- The member `camimage`. -/
def camimage (r : ImageCollection) (img_id : Int) : Except Error CameraImage :=
  if r.exist_image img_id = true then r.images.at_ img_id else .error .check_failed

/-- The member `campose`. -/
def campose (r : ImageCollection) (img_id : Int) : Except Error CameraPose :=
  if r.exist_image img_id = true then
    match r.images.at_ img_id with
    | .error e => .error e
    | .ok im => .ok im.pose
  else .error .check_failed

/-- The member `camview`. -/
def camview (r : ImageCollection) (img_id : Int) : Except Error CameraView :=
  if r.exist_image img_id = true then
    match r.images.at_ img_id with
    | .error e => .error e
    | .ok im =>
      let cam_id := im.cam_id
      match r.cameras.at_ cam_id with
      | .error e => .error e
      | .ok c => .ok ⟨c, im.pose, im.image_name⟩
  else .error .check_failed

/-- The member `image_name`. -/
def image_name (r : ImageCollection) (img_id : Int) : Except Error String :=
  if r.exist_image img_id = true then
    match r.images.at_ img_id with
    | .error e => .error e
    | .ok im => .ok im.image_name
  else .error .check_failed

/-- The loop of the copy constructor over `get_cam_ids()`. -/
def copy_cameras (imagecols : ImageCollection) :
    List Int → StdMap Camera → Except Error (StdMap Camera)
  | [], cameras => .ok cameras
  | id :: rest, cameras =>
    match imagecols.cam id with
    | .error e => .error e
    | .ok c => copy_cameras imagecols rest (cameras.insert id c)

/-- The loop of the copy constructor over `get_img_ids()`. -/
def copy_images (imagecols : ImageCollection) :
    List Int → StdMap CameraImage → Except Error (StdMap CameraImage)
  | [], images => .ok images
  | id :: rest, images =>
    match imagecols.camimage id with
    | .error e => .error e
    | .ok im => copy_images imagecols rest (images.insert id im)

/-- The copy constructor `ImageCollection(const ImageCollection&)`. -/
def copy (imagecols : ImageCollection) : Except Error ImageCollection :=
  match copy_cameras imagecols imagecols.get_cam_ids StdMap.empty with
  | .error e => .error e
  | .ok cameras =>
    match copy_images imagecols imagecols.get_img_ids StdMap.empty with
    | .error e => .error e
    | .ok images => .ok ⟨cameras, images⟩

/-- The loop of `get_camviews` and `get_image_list`: `f(it->first)` pushed back for every
entry, stopping at the first exception. -/
def collect {A V : Type} (f : Int → Except Error A) : List (Int × V) → Except Error (List A)
  | [] => .ok []
  | (id, _) :: rest =>
    match f id with
    | .error e => .error e
    | .ok a =>
      match collect f rest with
      | .error e => .error e
      | .ok as => .ok (a :: as)

/-- The member `get_camviews`. -/
def get_camviews (r : ImageCollection) : Except Error (List CameraView) :=
  collect r.camview r.images.entries

/-- The member `get_image_list`. -/
def get_image_list (r : ImageCollection) : Except Error (List String) :=
  collect r.image_name r.images.entries

/-- The member `as_dict`. `camera_as_dict` and `image_as_dict` are the external
`Camera::as_dict` and `CameraImage::as_dict`. -/
def as_dict {D : Type} (camera_as_dict : Camera → D) (image_as_dict : CameraImage → D)
    (r : ImageCollection) : PyDict D :=
  let dictvec_cameras : StdMap D :=
    r.cameras.entries.foldl (fun acc e => acc.insert e.1 (camera_as_dict e.2)) StdMap.empty
  let dictvec_images : StdMap D :=
    r.images.entries.foldl (fun acc e => acc.insert e.1 (image_as_dict e.2)) StdMap.empty
  ⟨some dictvec_cameras, some dictvec_images⟩

/-- The member `set_max_image_dim`. `camera_set_max_image_dim` is the external
`Camera::set_max_image_dim`, as the camera after the call. -/
def set_max_image_dim (camera_set_max_image_dim : Int → Camera → Camera)
    (r : ImageCollection) (val : Int) : Mutation :=
  (.ok (), { r with cameras := r.cameras.mapValues (camera_set_max_image_dim val) })

/-- The member `change_camera`. -/
def change_camera (r : ImageCollection) (cam_id : Int) (cam : Camera) : Mutation :=
  if r.exist_cam cam_id = true then
    (.ok (), { r with cameras := r.cameras.assign cam_id cam })
  else (.error .check_failed, r)

/-- The member `change_image`. -/
def change_image (r : ImageCollection) (img_id : Int) (camimage : CameraImage) : Mutation :=
  if r.exist_image img_id = true then
    (.ok (), { r with images := r.images.assign img_id camimage })
  else (.error .check_failed, r)

/-- The member `change_image_name`. -/
def change_image_name (r : ImageCollection) (img_id : Int) (new_name : String) : Mutation :=
  if r.exist_image img_id = true then
    let ref := r.images.subscript img_id CameraImage.default_constructed
    (.ok (), { r with images := ref.1.assign img_id (ref.2.SetImageName new_name) })
  else (.error .check_failed, r)

/-- The loop of the member `IsUndistorted`. `camera_is_undistorted` is the external
`Camera::IsUndistorted`. -/
def IsUndistorted_loop (camera_is_undistorted : Camera → Bool) : List (Int × Camera) → Bool
  | [] => true
  | (_, c) :: rest =>
    if (!camera_is_undistorted c) = true then false
    else IsUndistorted_loop camera_is_undistorted rest

/-- The member `IsUndistorted`. -/
def IsUndistorted (camera_is_undistorted : Camera → Bool) (r : ImageCollection) : Bool :=
  IsUndistorted_loop camera_is_undistorted r.cameras.entries

/-- Invariant I1: every stored image's `cam_id` is a key of `cameras`. -/
def I1 (r : ImageCollection) : Prop :=
  ∀ e ∈ r.images.entries, e.2.cam_id ∈ r.cameras.keys

instance (r : ImageCollection) : Decidable (I1 r) := by
  unfold I1
  infer_instance

end ImageCollection

/-- Views that carry the same camera id carry equal cameras. -/
def ConsistentCams (l : List CameraView) : Prop :=
  ∀ a ∈ l, ∀ b ∈ l, a.cam.CameraId = b.cam.CameraId → a.cam = b.cam

/-- The camera map holds exactly the cameras of the views seen so far, each under its
own id. -/
def CamerasOf (m : StdMap Camera) (seen : List CameraView) : Prop :=
  ∀ k c, (k, c) ∈ m.entries ↔ (c.CameraId = k ∧ ∃ v ∈ seen, v.cam = c)

/-! ## `LineReconstruction` -/

/-- Modelled from the spec: the external Line3d, a finite 3D segment; uninterpreted. -/
structure Line3d where
  coords : List Int
deriving DecidableEq, Repr

/-- Modelled from the spec: the external Line2d, a 2D observation; uninterpreted. -/
structure Line2d where
  coords : List Int
deriving DecidableEq, Repr

/-- Modelled from the spec: the external InfiniteLine3d; uninterpreted. -/
structure InfiniteLine3d where
  coords : List Int
deriving DecidableEq, Repr

/-- Modelled from the spec: the external MinimalInfiniteLine3d, the "minimal
(reduced-parameter, unbounded) representation of a LineTrack's 3D line"; uninterpreted. -/
structure MinimalInfiniteLine3d where
  coords : List Int
deriving DecidableEq, Repr

/-- Modelled from the spec: the external MinimalPinholeCamera, the "minimal representation
of one registry CameraView"; uninterpreted. -/
structure MinimalPinholeCamera where
  coords : List Int
deriving DecidableEq, Repr

/-- Modelled from the spec: the external LineTrack, "a 3D line with a list of per-image 2D
observations": the public member `line`, the image ids the track references and its
2D and 3D observations. -/
structure LineTrack where
  line : Line3d
  image_id_list : List Int
  line2d_list : List Line2d
  line3d_list : List Line3d
deriving DecidableEq, Repr

/-- The external routines used by the reconstruction. -/
structure Collaborators where
  /-- The conversion `MinimalInfiniteLine3d(line)`. -/
  to_minimal_line : Line3d → MinimalInfiniteLine3d
  /-- The member `MinimalInfiniteLine3d::GetInfiniteLine`. -/
  GetInfiniteLine : MinimalInfiniteLine3d → InfiniteLine3d
  /-- The segment extraction `GetLineSegmentFromInfiniteLine3d`. -/
  GetLineSegmentFromInfiniteLine3d : InfiniteLine3d → List Line3d → Int → Line3d
  /-- The conversion `MinimalPinholeCamera(camview)`. -/
  to_minimal_camera : CameraView → MinimalPinholeCamera
  /-- The member `MinimalPinholeCamera::GetCameraView`. -/
  GetCameraView : MinimalPinholeCamera → CameraView
  /-- The default-constructed CameraView, produced by `operator[]` on an absent key. -/
  default_camview : CameraView

/-- The reconstruction: original tracks and views, minimal lines and cameras. -/
structure LineReconstruction where
  init_tracks_ : List LineTrack
  lines_ : List MinimalInfiniteLine3d
  init_cameras_ : StdMap CameraView
  cameras_ : StdMap MinimalPinholeCamera
deriving DecidableEq

namespace LineReconstruction

/-- The camera loop of the constructor over `imagecols.get_img_ids()`; `camview` is
called twice for every id and either call may throw. -/
def init_minimal_cameras (X : Collaborators) (imagecols : ImageCollection) :
    List Int → StdMap CameraView → StdMap MinimalPinholeCamera →
      Except Error (StdMap CameraView × StdMap MinimalPinholeCamera)
  | [], init_cameras_, cameras_ => .ok (init_cameras_, cameras_)
  | img_id :: rest, init_cameras_, cameras_ =>
    match imagecols.camview img_id with
    | .error e => .error e
    | .ok v1 =>
      match imagecols.camview img_id with
      | .error e => .error e
      | .ok v2 =>
        init_minimal_cameras X imagecols rest (init_cameras_.insert img_id v1)
          (cameras_.insert img_id (X.to_minimal_camera v2))

/-- The constructor `LineReconstruction(linetracks, imagecols)`. -/
def create (X : Collaborators) (linetracks : List LineTrack) (imagecols : ImageCollection) :
    Except Error LineReconstruction :=
  let lines_ := linetracks.map (fun t => X.to_minimal_line t.line)
  match init_minimal_cameras X imagecols imagecols.get_img_ids StdMap.empty StdMap.empty with
  | .error e => .error e
  | .ok (init_cameras_, cameras_) => .ok ⟨linetracks, lines_, init_cameras_, cameras_⟩

/-- The member `GetCameras`. -/
def GetCameras (X : Collaborators) (rec : LineReconstruction) : StdMap CameraView :=
  rec.cameras_.entries.foldl (fun cameras e => cameras.insert e.1 (X.GetCameraView e.2))
    StdMap.empty

/-- Modelled from the spec: the member `GetImageIds(track_id)` of the header, "the image
ids that track references"; `none` is an index outside `init_tracks_`. -/
def GetImageIds (rec : LineReconstruction) (track_id : Nat) : Option (List Int) :=
  (rec.init_tracks_.get? track_id).map (fun t => t.image_id_list)

/-- Modelled from the spec: the member `GetLine3ds(track_id)` of the header, "that
track's 3D point observations"; `none` is an index outside `init_tracks_`. -/
def GetLine3ds (rec : LineReconstruction) (track_id : Nat) : Option (List Line3d) :=
  (rec.init_tracks_.get? track_id).map (fun t => t.line3d_list)

/-- The inner loop of `GetLines`: `p_cameras.push_back(cameras[*it])` for every image id,
on the local map `cameras`. -/
def gather_views (dflt : CameraView) :
    List Int → StdMap CameraView → List CameraView → StdMap CameraView × List CameraView
  | [], cameras, p_cameras => (cameras, p_cameras)
  | id :: rest, cameras, p_cameras =>
    let ref := cameras.subscript id dflt
    gather_views dflt rest ref.1 (p_cameras ++ [ref.2])

/-- The outer loop of `GetLines` from `track_id` on, over the remaining minimal lines and
the local map `cameras`; `none` is an access outside `init_tracks_`. -/
def GetLines_loop (X : Collaborators) (rec : LineReconstruction) (num_outliers : Int) :
    List MinimalInfiniteLine3d → Nat → StdMap CameraView → Option (List Line3d)
  | [], _, _ => some []
  | minimal :: rest, track_id, cameras =>
    match rec.GetImageIds track_id with
    | none => none
    | some image_ids =>
      let gathered := gather_views X.default_camview image_ids cameras []
      match rec.GetLine3ds track_id with
      | none => none
      | some line3ds =>
        let line :=
          X.GetLineSegmentFromInfiniteLine3d (X.GetInfiniteLine minimal) line3ds num_outliers
        match GetLines_loop X rec num_outliers rest (track_id + 1) gathered.1 with
        | none => none
        | some lines => some (line :: lines)

/-- The member `GetLines`. -/
def GetLines (X : Collaborators) (rec : LineReconstruction) (num_outliers : Int) :
    Option (List Line3d) :=
  GetLines_loop X rec num_outliers rec.lines_ 0 (rec.GetCameras X)

/-- The loop of `GetTracks` for `track_id = start, ..., n_tracks - 1`; `none` is an access
outside `init_tracks_` or `lines`. -/
def GetTracks_loop (rec : LineReconstruction) (lines : List Line3d) :
    Nat → Nat → Option (List LineTrack)
  | 0, _ => some []
  | remaining + 1, track_id =>
    match rec.init_tracks_.get? track_id, lines.get? track_id with
    | some init_track, some line =>
      let newtrack : LineTrack := { init_track with line := line }
      match GetTracks_loop rec lines remaining (track_id + 1) with
      | none => none
      | some tracks => some (newtrack :: tracks)
    | _, _ => none

/-- The member `GetTracks`. -/
def GetTracks (X : Collaborators) (rec : LineReconstruction) (num_outliers : Int) :
    Option (List LineTrack) :=
  match rec.GetLines X num_outliers with
  | none => none
  | some lines => GetTracks_loop rec lines rec.lines_.length 0

end LineReconstruction

/-- A concrete choice of the external routines, for evaluating the reconstruction on
examples. -/
def example_collaborators : Collaborators where
  to_minimal_line l := ⟨l.coords⟩
  GetInfiniteLine m := ⟨m.coords⟩
  GetLineSegmentFromInfiniteLine3d inf observed num_outliers :=
    ⟨inf.coords ++ [(observed.length : Int), num_outliers]⟩
  to_minimal_camera v := ⟨v.cam.camera_id :: v.cam.model ++ v.pose.params⟩
  GetCameraView m := ⟨⟨0, m.coords⟩, ⟨[]⟩, "none"⟩
  default_camview := ⟨⟨0, []⟩, ⟨[]⟩, "none"⟩

/-! ## Facts about `StdMap` -/

theorem keysAscending_tail {V : Type} {e : Int × V} {t : List (Int × V)}
    (h : KeysAscending (e :: t)) : KeysAscending t := by
  simp only [KeysAscending, entryKeys, List.map_cons, List.pairwise_cons] at h ⊢
  exact h.2

theorem keysAscending_head_lt {V : Type} {e : Int × V} {t : List (Int × V)}
    (h : KeysAscending (e :: t)) : ∀ x ∈ entryKeys t, e.1 < x := by
  simp only [KeysAscending, entryKeys, List.map_cons, List.pairwise_cons] at h ⊢
  exact h.1

theorem mem_entryKeys_of_mem {V : Type} {k : Int} {v : V} {l : List (Int × V)}
    (h : (k, v) ∈ l) : k ∈ entryKeys l := by
  simp only [entryKeys, List.mem_map]
  exact ⟨(k, v), h, rfl⟩

theorem exists_mem_of_mem_entryKeys {V : Type} {k : Int} {l : List (Int × V)}
    (h : k ∈ entryKeys l) : ∃ v, (k, v) ∈ l := by
  simp only [entryKeys, List.mem_map] at h
  obtain ⟨⟨k', v⟩, hmem, hk⟩ := h
  simp only at hk
  subst hk
  exact ⟨v, hmem⟩

/-- In a map, a key has one value. -/
theorem entry_unique {V : Type} {l : List (Int × V)} (h : KeysAscending l) {k : Int} {v w : V}
    (hv : (k, v) ∈ l) (hw : (k, w) ∈ l) : v = w := by
  induction l with
  | nil => cases hv
  | cons hd t ih =>
    have hlt := keysAscending_head_lt h
    rcases List.mem_cons.1 hv with hv | hv <;> rcases List.mem_cons.1 hw with hw | hw
    · rw [← hv] at hw
      exact ((Prod.mk.injEq _ _ _ _).mp hw).2.symm
    · have := hlt k (mem_entryKeys_of_mem hw)
      rw [← hv] at this
      simp at this
    · have := hlt k (mem_entryKeys_of_mem hv)
      rw [← hw] at this
      simp at this
    · exact ih (keysAscending_tail h) hv hw

theorem findEntry_eq_none_iff {V : Type} (k : Int) (l : List (Int × V)) :
    findEntry k l = none ↔ k ∉ entryKeys l := by
  induction l with
  | nil => simp [findEntry, entryKeys]
  | cons hd t ih =>
    obtain ⟨k', v'⟩ := hd
    unfold findEntry
    by_cases h : k = k'
    · simp [h, entryKeys]
    · simp only [h, if_false, ih]
      simp [entryKeys, h]

theorem findEntry_eq_some_iff {V : Type} {l : List (Int × V)} (hl : KeysAscending l)
    (k : Int) (v : V) : findEntry k l = some v ↔ (k, v) ∈ l := by
  induction l with
  | nil => simp [findEntry]
  | cons hd t ih =>
    obtain ⟨k', v'⟩ := hd
    have hlt := keysAscending_head_lt hl
    unfold findEntry
    by_cases h : k = k'
    · subst h
      simp only [if_true, Option.some.injEq, List.mem_cons, Prod.mk.injEq, true_and]
      constructor
      · intro e
        exact Or.inl e.symm
      · intro e
        rcases e with e | e
        · exact e.symm
        · have := hlt k (mem_entryKeys_of_mem e)
          simp at this
    · simp only [h, if_false, ih (keysAscending_tail hl), List.mem_cons, Prod.mk.injEq,
        false_and, false_or]

theorem count_entries_eq_one_iff {V : Type} {l : List (Int × V)} (hl : KeysAscending l)
    (k : Int) : (l.filter (fun e => decide (e.1 = k))).length = 1 ↔ k ∈ entryKeys l := by
  induction l with
  | nil => simp [entryKeys]
  | cons hd t ih =>
    obtain ⟨k', v'⟩ := hd
    have hlt := keysAscending_head_lt hl
    have iht := ih (keysAscending_tail hl)
    by_cases h : k' = k
    · subst h
      have hnot : k' ∉ entryKeys t := by
        intro hmem
        have := hlt k' hmem
        simp at this
      have hzero : (t.filter (fun e => decide (e.1 = k'))).length = 0 := by
        rw [List.length_eq_zero, List.filter_eq_nil_iff]
        intro e he hdec
        have hk : e.1 = k' := by simpa using hdec
        apply hnot
        simp only [entryKeys, List.mem_map]
        exact ⟨e, he, hk⟩
      simp [List.filter_cons, hzero, entryKeys]
    · have hne : ¬ k = k' := fun e => h e.symm
      simp only [List.filter_cons, h, decide_False, Bool.false_eq_true, if_false, iht]
      simp [entryKeys, hne]

/-- Inserting a key above all stored keys appends the entry. -/
theorem insertEntry_of_lt {V : Type} (k : Int) (v : V) (l : List (Int × V))
    (h : ∀ x ∈ entryKeys l, x < k) : insertEntry k v l = l ++ [(k, v)] := by
  induction l with
  | nil => simp [insertEntry]
  | cons hd t ih =>
    obtain ⟨k', v'⟩ := hd
    have hk : k' < k := h k' (by simp [entryKeys])
    have h1 : ¬ k < k' := by omega
    have h2 : ¬ k = k' := by omega
    unfold insertEntry
    simp only [h1, h2, if_false, List.cons_append, List.cons.injEq, true_and]
    apply ih
    intro x hx
    apply h
    simp only [entryKeys, List.map_cons, List.mem_cons] at hx ⊢
    exact Or.inr hx

theorem mem_insertEntry_of_not_mem {V : Type} (k : Int) (v : V) (l : List (Int × V))
    (hk : k ∉ entryKeys l) (e : Int × V) : e ∈ insertEntry k v l ↔ e = (k, v) ∨ e ∈ l := by
  induction l with
  | nil => simp [insertEntry]
  | cons hd t ih =>
    obtain ⟨k', v'⟩ := hd
    have hne : ¬ k = k' := by
      intro h
      apply hk
      simp [entryKeys, h]
    have hkt : k ∉ entryKeys t := by
      intro h
      apply hk
      simp only [entryKeys, List.map_cons, List.mem_cons] at h ⊢
      exact Or.inr h
    unfold insertEntry
    by_cases h1 : k < k'
    · simp only [h1, if_true, List.mem_cons]
    · simp only [h1, hne, if_false, List.mem_cons, ih hkt]
      tauto

theorem insertEntry_of_mem {V : Type} (k : Int) (v : V) {l : List (Int × V)}
    (hl : KeysAscending l) (hk : k ∈ entryKeys l) : insertEntry k v l = l := by
  induction l with
  | nil => simp [entryKeys] at hk
  | cons hd t ih =>
    obtain ⟨k', v'⟩ := hd
    have hlt := keysAscending_head_lt hl
    unfold insertEntry
    by_cases h2 : k = k'
    · subst h2
      simp
    · have hkt : k ∈ entryKeys t := by
        simp only [entryKeys, List.map_cons, List.mem_cons] at hk ⊢
        rcases hk with hk | hk
        · exact absurd hk h2
        · exact hk
      have h1 : ¬ k < k' := by
        have := hlt k hkt
        simp only at this
        omega
      simp only [h1, h2, if_false, List.cons.injEq, true_and]
      exact ih (keysAscending_tail hl) hkt

theorem assignEntry_of_not_mem {V : Type} (k : Int) (v : V) (l : List (Int × V))
    (hk : k ∉ entryKeys l) : assignEntry k v l = insertEntry k v l := by
  induction l with
  | nil => simp [insertEntry, assignEntry]
  | cons hd t ih =>
    obtain ⟨k', v'⟩ := hd
    have hne : ¬ k = k' := by
      intro h
      apply hk
      simp [entryKeys, h]
    have hkt : k ∉ entryKeys t := by
      intro h
      apply hk
      simp only [entryKeys, List.map_cons, List.mem_cons] at h ⊢
      exact Or.inr h
    unfold insertEntry assignEntry
    by_cases h1 : k < k'
    · simp only [h1, if_true]
    · simp only [h1, hne, if_false, ih hkt]

/-- Assigning to a stored key replaces its value in place. -/
theorem assignEntry_of_mem {V : Type} (k : Int) (v : V) {l : List (Int × V)}
    (hl : KeysAscending l) (hk : k ∈ entryKeys l) :
    assignEntry k v l = l.map (fun e => if e.1 = k then (k, v) else e) := by
  induction l with
  | nil => simp [entryKeys] at hk
  | cons hd t ih =>
    obtain ⟨k', v'⟩ := hd
    have hlt := keysAscending_head_lt hl
    unfold assignEntry
    by_cases h2 : k = k'
    · subst h2
      simp only [lt_self_iff_false, if_false, if_true, List.map_cons, List.cons.injEq, true_and]
      have hid : ∀ e ∈ t, (fun e : Int × V => if e.1 = k then (k, v) else e) e = id e := by
        intro e he
        have hne : ¬ e.1 = k := by
          intro h
          have hmem : e.1 ∈ entryKeys t := by
            simp only [entryKeys, List.mem_map]
            exact ⟨e, he, rfl⟩
          have := hlt e.1 hmem
          simp only at this
          omega
        simp [hne]
      rw [List.map_congr_left hid, List.map_id]
    · have hkt : k ∈ entryKeys t := by
        simp only [entryKeys, List.map_cons, List.mem_cons] at hk ⊢
        rcases hk with hk | hk
        · exact absurd hk h2
        · exact hk
      have h1 : ¬ k < k' := by
        have := hlt k hkt
        simp only at this
        omega
      have h3 : ¬ k' = k := fun e => h2 e.symm
      simp only [h1, h2, h3, if_false, List.map_cons, List.cons.injEq, true_and]
      exact ih (keysAscending_tail hl) hkt

theorem entryKeys_assignEntry_of_mem {V : Type} (k : Int) (v : V) {l : List (Int × V)}
    (hl : KeysAscending l) (hk : k ∈ entryKeys l) :
    entryKeys (assignEntry k v l) = entryKeys l := by
  rw [assignEntry_of_mem k v hl hk]
  simp only [entryKeys, List.map_map]
  apply List.map_congr_left
  intro e _
  by_cases h : e.1 = k
  · simp [h]
  · simp [h]

namespace StdMap

variable {V : Type}

theorem count_eq_one_iff (m : StdMap V) (k : Int) : m.count k = 1 ↔ k ∈ m.keys :=
  count_entries_eq_one_iff m.ascending k

theorem find?_eq_some_iff (m : StdMap V) (k : Int) (v : V) :
    m.find? k = some v ↔ (k, v) ∈ m.entries :=
  findEntry_eq_some_iff m.ascending k v

theorem find?_eq_none_iff (m : StdMap V) (k : Int) : m.find? k = none ↔ k ∉ m.keys :=
  findEntry_eq_none_iff k m.entries

theorem at_eq_ok_iff (m : StdMap V) (k : Int) (v : V) :
    m.at_ k = .ok v ↔ (k, v) ∈ m.entries := by
  unfold at_
  cases h : m.find? k with
  | none =>
    simp only [reduceCtorEq, false_iff]
    intro hmem
    exact (m.find?_eq_none_iff k).1 h (mem_entryKeys_of_mem hmem)
  | some w =>
    simp only [Except.ok.injEq]
    rw [← m.find?_eq_some_iff, h, Option.some.injEq]

theorem at_eq_error_iff (m : StdMap V) (k : Int) (e : Error) :
    m.at_ k = .error e ↔ (k ∉ m.keys ∧ e = .out_of_range) := by
  unfold at_
  cases h : m.find? k with
  | none =>
    have := (m.find?_eq_none_iff k).1 h
    simp only [Except.error.injEq, this, not_false_eq_true, true_and]
    exact eq_comm
  | some w =>
    have hmem := mem_entryKeys_of_mem ((m.find?_eq_some_iff k w).1 h)
    simp only [reduceCtorEq, false_iff, not_and]
    intro hn
    exact absurd hmem hn

theorem mem_keys_iff (m : StdMap V) (k : Int) : k ∈ m.keys ↔ ∃ v, (k, v) ∈ m.entries :=
  ⟨exists_mem_of_mem_entryKeys, fun ⟨_, h⟩ => mem_entryKeys_of_mem h⟩

theorem keys_insert (m : StdMap V) (k : Int) (v : V) (x : Int) :
    x ∈ (m.insert k v).keys ↔ x = k ∨ x ∈ m.keys :=
  entryKeys_insertEntry k v m.entries x

theorem insert_entries_of_lt (m : StdMap V) (k : Int) (v : V) (h : ∀ x ∈ m.keys, x < k) :
    (m.insert k v).entries = m.entries ++ [(k, v)] :=
  insertEntry_of_lt k v m.entries h

theorem insert_of_mem (m : StdMap V) (k : Int) (v : V) (h : k ∈ m.keys) : m.insert k v = m :=
  ext_entries (insertEntry_of_mem k v m.ascending h)

theorem keys_assign_of_mem (m : StdMap V) (k : Int) (v : V) (h : k ∈ m.keys) :
    (m.assign k v).keys = m.keys :=
  entryKeys_assignEntry_of_mem k v m.ascending h

theorem assign_entries_of_mem (m : StdMap V) (k : Int) (v : V) (h : k ∈ m.keys) :
    (m.assign k v).entries = m.entries.map (fun e => if e.1 = k then (k, v) else e) :=
  assignEntry_of_mem k v m.ascending h

theorem keys_mapValues {W : Type} (f : V → W) (m : StdMap V) : (m.mapValues f).keys = m.keys :=
  entryKeys_mapValues f m.entries

end StdMap

/-! ## Facts about the registry -/

/-- The entries produced by the vector loops: position `i` holds `input[i]`. -/
theorem insert_from_vector_entries {V : Type} (xs : List V) :
    ∀ (start : Nat) (m : StdMap V), (∀ x ∈ m.keys, x < (start : Int)) →
      (insert_from_vector xs start m).entries =
        m.entries ++ (xs.enumFrom start).map (fun p => ((p.1 : Int), p.2)) := by
  induction xs with
  | nil =>
    intro start m _
    simp [insert_from_vector]
  | cons x rest ih =>
    intro start m hm
    have hins : (m.insert (Int.ofNat start) x).entries = m.entries ++ [((start : Int), x)] :=
      m.insert_entries_of_lt (Int.ofNat start) x hm
    have hkeys : ∀ y ∈ (m.insert (Int.ofNat start) x).keys, y < ((start + 1 : Nat) : Int) := by
      intro y hy
      rw [StdMap.keys_insert] at hy
      rcases hy with hy | hy
      · subst hy
        simp only [Int.ofNat_eq_coe]
        omega
      · have := hm y hy
        omega
    unfold insert_from_vector
    rw [ih (start + 1) _ hkeys, hins]
    simp [List.enumFrom_cons]

theorem init_from_vector_entries {V : Type} (xs : List V) :
    (insert_from_vector xs 0 StdMap.empty).entries =
      (xs.enumFrom 0).map (fun p => ((p.1 : Int), p.2)) := by
  have h := insert_from_vector_entries xs 0 StdMap.empty (by simp [StdMap.keys, StdMap.empty, entryKeys])
  simpa [StdMap.empty] using h

theorem init_from_vector_values {V : Type} (xs : List V) :
    (insert_from_vector xs 0 StdMap.empty).entries.map Prod.snd = xs := by
  rw [init_from_vector_entries, List.map_map]
  have : (Prod.snd ∘ fun p : Nat × V => ((p.1 : Int), p.2)) = Prod.snd := rfl
  rw [this, List.enumFrom_map_snd]

theorem init_from_vector_keys {V : Type} (xs : List V) :
    (insert_from_vector xs 0 StdMap.empty).keys =
      (List.range xs.length).map (fun (i : Nat) => (i : Int)) := by
  unfold StdMap.keys entryKeys
  rw [init_from_vector_entries, List.map_map]
  have : (Prod.fst ∘ fun p : Nat × V => ((p.1 : Int), p.2)) = (fun i : Nat => (i : Int)) ∘ Prod.fst := rfl
  rw [this, ← List.map_map, List.enumFrom_map_fst, List.range_eq_range']

theorem mem_init_from_vector_keys {V : Type} (xs : List V) (k : Int) :
    k ∈ (insert_from_vector xs 0 StdMap.empty).keys ↔ 0 ≤ k ∧ k < (xs.length : Int) := by
  rw [init_from_vector_keys, List.mem_map]
  constructor
  · rintro ⟨i, hi, rfl⟩
    rw [List.mem_range] at hi
    omega
  · rintro ⟨h0, h1⟩
    refine ⟨k.toNat, ?_, ?_⟩
    · rw [List.mem_range]
      omega
    · omega

namespace ImageCollection

theorem exist_cam_iff (r : ImageCollection) (id : Int) :
    r.exist_cam id = true ↔ id ∈ r.cameras.keys := by
  simp only [exist_cam, decide_eq_true_eq]
  exact r.cameras.count_eq_one_iff id

theorem exist_image_iff (r : ImageCollection) (id : Int) :
    r.exist_image id = true ↔ id ∈ r.images.keys := by
  simp only [exist_image, decide_eq_true_eq]
  exact r.images.count_eq_one_iff id

/-- I1 through the stored values of `images`. -/
theorem I1_iff_values (r : ImageCollection) :
    I1 r ↔ ∀ im ∈ r.images.entries.map Prod.snd, im.cam_id ∈ r.cameras.keys := by
  unfold I1
  simp only [List.mem_map, forall_exists_index, and_imp]
  constructor
  · intro h im e he heq
    rw [← heq]
    exact h e he
  · intro h e he
    exact h e.2 e he rfl

/-- Replacing the record of a stored image keeps I1 exactly when the new record's
camera id is a camera key. -/
theorem I1_assign_image (r : ImageCollection) (id : Int) (im : CameraImage)
    (hid : id ∈ r.images.keys) (hI : I1 r) :
    I1 { r with images := r.images.assign id im } ↔ im.cam_id ∈ r.cameras.keys := by
  unfold I1
  simp only [r.images.assign_entries_of_mem id im hid, List.mem_map, forall_exists_index,
    and_imp]
  constructor
  · intro h
    obtain ⟨v, hv⟩ := (r.images.mem_keys_iff id).1 hid
    have := h (id, im) (id, v) hv (by simp)
    exact this
  · intro h e e0 he0 heq
    by_cases hk : e0.1 = id
    · simp only [hk, if_true] at heq
      rw [← heq]
      exact h
    · simp only [hk, if_false] at heq
      rw [← heq]
      exact hI e0 he0

end ImageCollection

open ImageCollection

/-! ## The constructor from views -/

theorem consistentCams_of_camerasOf {m : StdMap Camera} {seen : List CameraView}
    (h : CamerasOf m seen) : ConsistentCams seen := by
  intro a ha b hb hab
  have h1 : (a.cam.CameraId, a.cam) ∈ m.entries := (h _ _).2 ⟨rfl, a, ha, rfl⟩
  have h2 : (a.cam.CameraId, b.cam) ∈ m.entries := (h _ _).2 ⟨hab.symm, b, hb, rfl⟩
  exact entry_unique m.ascending h1 h2

theorem camerasOf_empty : CamerasOf StdMap.empty [] := by
  intro k c
  simp [StdMap.empty]

/-- The loop of the constructor from views: it fails exactly when the views seen so far
together with the remaining ones are inconsistent, and otherwise stores every camera
under its own id. -/
theorem of_camviews_loop_spec (rest : List CameraView) :
    ∀ (n : Nat) (r : ImageCollection) (seen : List CameraView), CamerasOf r.cameras seen →
      match of_camviews_loop rest n r with
      | .ok r1 => ConsistentCams (seen ++ rest) ∧ CamerasOf r1.cameras (seen ++ rest)
      | .error _ => ¬ ConsistentCams (seen ++ rest) := by
  induction rest with
  | nil =>
    intro n r seen h
    simp only [of_camviews_loop, List.append_nil]
    exact ⟨consistentCams_of_camerasOf h, h⟩
  | cons v rest ih =>
    intro n r seen h
    have happ : seen ++ v :: rest = (seen ++ [v]) ++ rest := by simp
    unfold of_camviews_loop
    simp only []
    by_cases hex : exist_cam
        { r with images := r.images.insert (Int.ofNat n) (CameraImage.of_camview v) }
        v.cam.CameraId = true
    · have hkey : v.cam.CameraId ∈ r.cameras.keys := (exist_cam_iff _ _).1 hex
      obtain ⟨stored, hstored⟩ := (r.cameras.mem_keys_iff _).1 hkey
      have hat : r.cameras.at_ v.cam.CameraId = .ok stored :=
        (r.cameras.at_eq_ok_iff _ _).2 hstored
      simp only [hex, if_true, hat]
      obtain ⟨_, u, hu, huc⟩ := (h _ _).1 hstored
      by_cases heq : stored = v.cam
      · simp only [heq, decide_True, if_true]
        rw [happ]
        apply ih
        intro k c
        rw [h k c]
        constructor
        · rintro ⟨hk, w, hw, hwc⟩
          exact ⟨hk, w, List.mem_append_left _ hw, hwc⟩
        · rintro ⟨hk, w, hw, hwc⟩
          refine ⟨hk, ?_⟩
          rcases List.mem_append.1 hw with hw | hw
          · exact ⟨w, hw, hwc⟩
          · simp only [List.mem_singleton] at hw
            subst hw
            exact ⟨u, hu, by rw [huc, heq, hwc]⟩
      · simp only [heq, decide_False, Bool.false_eq_true, if_false]
        intro hcons
        apply heq
        rw [← huc]
        apply hcons u (List.mem_append_left _ hu) v (by simp)
        rw [huc]
        exact ((h _ _).1 hstored).1
    · have hkey : v.cam.CameraId ∉ r.cameras.keys := fun hk => hex ((exist_cam_iff _ _).2 hk)
      simp only [hex, if_false]
      rw [happ]
      apply ih
      intro k c
      show (k, c) ∈ insertEntry v.cam.CameraId v.cam r.cameras.entries ↔ _
      rw [mem_insertEntry_of_not_mem _ _ _ hkey, h k c]
      constructor
      · rintro (hnew | ⟨hk, w, hw, hwc⟩)
        · obtain ⟨hk, hc⟩ := (Prod.mk.injEq _ _ _ _).mp hnew
          subst hc
          exact ⟨hk.symm, v, by simp, rfl⟩
        · exact ⟨hk, w, List.mem_append_left _ hw, hwc⟩
      · rintro ⟨hk, w, hw, hwc⟩
        rcases List.mem_append.1 hw with hw | hw
        · exact Or.inr ⟨hk, w, hw, hwc⟩
        · simp only [List.mem_singleton] at hw
          subst hw
          left
          rw [← hk, ← hwc]

theorem not_consistentCams_iff (l : List CameraView) :
    ¬ ConsistentCams l ↔
      ∃ (i j : Nat) (vi vj : CameraView), i < j ∧ l[i]? = some vi ∧ l[j]? = some vj ∧
        vi.cam.CameraId = vj.cam.CameraId ∧ vi.cam ≠ vj.cam := by
  constructor
  · intro h
    unfold ConsistentCams at h
    push_neg at h
    obtain ⟨a, ha, b, hb, hid, hne⟩ := h
    obtain ⟨i, hi⟩ := List.mem_iff_getElem?.1 ha
    obtain ⟨j, hj⟩ := List.mem_iff_getElem?.1 hb
    rcases Nat.lt_trichotomy i j with hlt | heq | hgt
    · exact ⟨i, j, a, b, hlt, hi, hj, hid, hne⟩
    · subst heq
      rw [hi] at hj
      cases hj
      exact absurd rfl hne
    · exact ⟨j, i, b, a, hgt, hj, hi, hid.symm, fun e => hne e.symm⟩
  · rintro ⟨i, j, vi, vj, _, hi, hj, hid, hne⟩ hcons
    exact hne (hcons vi (List.mem_iff_getElem?.2 ⟨i, hi⟩) vj (List.mem_iff_getElem?.2 ⟨j, hj⟩) hid)

/-- The constructor from views fails exactly on an inconsistent list. -/
theorem of_camviews_error_iff (camviews : List CameraView) :
    (∃ e, of_camviews camviews = .error e) ↔ ¬ ConsistentCams camviews := by
  have h := of_camviews_loop_spec camviews 0 ⟨StdMap.empty, StdMap.empty⟩ [] camerasOf_empty
  unfold of_camviews
  cases hres : of_camviews_loop camviews 0 ⟨StdMap.empty, StdMap.empty⟩ with
  | error e =>
    rw [hres] at h
    simp only [List.nil_append] at h
    simp only [Except.error.injEq, exists_eq', true_iff]
    exact h
  | ok r1 =>
    rw [hres] at h
    simp only [List.nil_append] at h
    simp only [reduceCtorEq, exists_false, false_iff, not_not]
    exact h.1

/-! ## Lookups -/

theorem cam_eq_ok_iff (r : ImageCollection) (id : Int) (c : Camera) :
    r.cam id = .ok c ↔ (id, c) ∈ r.cameras.entries := by
  unfold cam
  by_cases hk : id ∈ r.cameras.keys
  · simp only [(r.exist_cam_iff id).2 hk, if_true]
    exact r.cameras.at_eq_ok_iff id c
  · have hex : ¬ r.exist_cam id = true := fun h => hk ((r.exist_cam_iff id).1 h)
    simp only [hex, if_false, reduceCtorEq, false_iff]
    exact fun hmem => hk (mem_entryKeys_of_mem hmem)

theorem camimage_eq_ok_iff (r : ImageCollection) (id : Int) (im : CameraImage) :
    r.camimage id = .ok im ↔ (id, im) ∈ r.images.entries := by
  unfold camimage
  by_cases hk : id ∈ r.images.keys
  · simp only [(r.exist_image_iff id).2 hk, if_true]
    exact r.images.at_eq_ok_iff id im
  · have hex : ¬ r.exist_image id = true := fun h => hk ((r.exist_image_iff id).1 h)
    simp only [hex, if_false, reduceCtorEq, false_iff]
    exact fun hmem => hk (mem_entryKeys_of_mem hmem)

/-- A result is an error exactly when it is no value. -/
theorem except_error_iff_not_ok {A : Type} (x : Except Error A) :
    (∃ e, x = .error e) ↔ ¬ ∃ a, x = .ok a := by
  cases x with
  | error e => simp
  | ok a => simp

theorem campose_eq_ok_iff (r : ImageCollection) (id : Int) (p : CameraPose) :
    r.campose id = .ok p ↔ ∃ im, (id, im) ∈ r.images.entries ∧ im.pose = p := by
  unfold campose
  by_cases hk : id ∈ r.images.keys
  · obtain ⟨v, hv⟩ := (r.images.mem_keys_iff id).1 hk
    simp only [(r.exist_image_iff id).2 hk, if_true, (r.images.at_eq_ok_iff id v).2 hv,
      Except.ok.injEq]
    constructor
    · intro h
      exact ⟨v, hv, h⟩
    · rintro ⟨im, him, hp⟩
      rw [entry_unique r.images.ascending hv him]
      exact hp
  · have hex : ¬ r.exist_image id = true := fun h => hk ((r.exist_image_iff id).1 h)
    simp only [hex, if_false, reduceCtorEq, false_iff, not_exists, not_and]
    exact fun im hmem => absurd (mem_entryKeys_of_mem hmem) hk

theorem image_name_eq_ok_iff (r : ImageCollection) (id : Int) (s : String) :
    r.image_name id = .ok s ↔ ∃ im, (id, im) ∈ r.images.entries ∧ im.image_name = s := by
  unfold image_name
  by_cases hk : id ∈ r.images.keys
  · obtain ⟨v, hv⟩ := (r.images.mem_keys_iff id).1 hk
    simp only [(r.exist_image_iff id).2 hk, if_true, (r.images.at_eq_ok_iff id v).2 hv,
      Except.ok.injEq]
    constructor
    · intro h
      exact ⟨v, hv, h⟩
    · rintro ⟨im, him, hp⟩
      rw [entry_unique r.images.ascending hv him]
      exact hp
  · have hex : ¬ r.exist_image id = true := fun h => hk ((r.exist_image_iff id).1 h)
    simp only [hex, if_false, reduceCtorEq, false_iff, not_exists, not_and]
    exact fun im hmem => absurd (mem_entryKeys_of_mem hmem) hk

theorem camview_eq_ok_iff (r : ImageCollection) (id : Int) (v : CameraView) :
    r.camview id = .ok v ↔
      ∃ im c, (id, im) ∈ r.images.entries ∧ (im.cam_id, c) ∈ r.cameras.entries ∧
        v = ⟨c, im.pose, im.image_name⟩ := by
  unfold camview
  by_cases hk : id ∈ r.images.keys
  · obtain ⟨im0, him0⟩ := (r.images.mem_keys_iff id).1 hk
    simp only [(r.exist_image_iff id).2 hk, if_true, (r.images.at_eq_ok_iff id im0).2 him0]
    by_cases hc : im0.cam_id ∈ r.cameras.keys
    · obtain ⟨c0, hc0⟩ := (r.cameras.mem_keys_iff _).1 hc
      simp only [(r.cameras.at_eq_ok_iff _ c0).2 hc0, Except.ok.injEq]
      constructor
      · intro h
        exact ⟨im0, c0, him0, hc0, h.symm⟩
      · rintro ⟨im, c, him, hcm, hv⟩
        have e1 := entry_unique r.images.ascending him0 him
        subst e1
        have e2 := entry_unique r.cameras.ascending hc0 hcm
        subst e2
        exact hv.symm
    · have herr : r.cameras.at_ im0.cam_id = .error .out_of_range :=
        (r.cameras.at_eq_error_iff _ _).2 ⟨hc, rfl⟩
      simp only [herr, reduceCtorEq, false_iff, not_exists, not_and]
      intro im c him hcm _
      have e1 := entry_unique r.images.ascending him0 him
      subst e1
      exact hc (mem_entryKeys_of_mem hcm)
  · have hex : ¬ r.exist_image id = true := fun h => hk ((r.exist_image_iff id).1 h)
    simp only [hex, if_false, reduceCtorEq, false_iff, not_exists, not_and]
    exact fun im _ hmem => absurd (mem_entryKeys_of_mem hmem) hk

/-! ## Serialization -/

/-- Inserting the entries of a map one by one, in order, into a map with smaller keys
appends them. -/
theorem foldl_insert_entries {V W : Type} (f : V → W) (l : List (Int × V)) :
    KeysAscending l → ∀ acc : StdMap W, (∀ a ∈ acc.keys, ∀ b ∈ entryKeys l, a < b) →
      (l.foldl (fun acc e => acc.insert e.1 (f e.2)) acc).entries =
        acc.entries ++ l.map (fun e => (e.1, f e.2)) := by
  induction l with
  | nil =>
    intro _ acc _
    simp
  | cons hd t ih =>
    intro hl acc hacc
    have hlt := keysAscending_head_lt hl
    have hins : (acc.insert hd.1 (f hd.2)).entries = acc.entries ++ [(hd.1, f hd.2)] := by
      apply acc.insert_entries_of_lt
      intro a ha
      exact hacc a ha hd.1 (by simp [entryKeys])
    simp only [List.foldl_cons, List.map_cons]
    rw [ih (keysAscending_tail hl), hins]
    · simp
    · intro a ha b hb
      rw [StdMap.keys_insert] at ha
      rcases ha with ha | ha
      · rw [ha]
        exact hlt b hb
      · apply hacc a ha b
        simp only [entryKeys, List.map_cons, List.mem_cons] at hb ⊢
        exact Or.inr hb

theorem foldl_insert_empty_entries {V W : Type} (f : V → W) (m : StdMap V) :
    (m.entries.foldl (fun acc e => acc.insert e.1 (f e.2)) StdMap.empty).entries =
      m.entries.map (fun e => (e.1, f e.2)) := by
  have h := foldl_insert_entries f m.entries m.ascending StdMap.empty
    (by simp [StdMap.keys, StdMap.empty, entryKeys])
  simpa [StdMap.empty] using h

theorem foldl_insert_empty_eq_mapValues {V W : Type} (f : V → W) (m : StdMap V) :
    m.entries.foldl (fun acc e => acc.insert e.1 (f e.2)) StdMap.empty = m.mapValues f :=
  StdMap.ext_entries (foldl_insert_empty_entries f m)

theorem load_images_eq_foldl {D : Type} (image_of_dict : D → CameraImage)
    (l : List (Int × D)) : ∀ acc : StdMap CameraImage,
      load_images image_of_dict l acc =
        l.foldl (fun acc e => acc.insert e.1 (image_of_dict e.2)) acc := by
  induction l with
  | nil =>
    intro acc
    rfl
  | cons hd t ih =>
    intro acc
    obtain ⟨k, d⟩ := hd
    simp only [load_images, List.foldl_cons, ih]

theorem c_assert_of_true (ndebug : Bool) : c_assert ndebug true = .ok () := by
  cases ndebug <;> rfl

theorem c_assert_ndebug (cond : Bool) : c_assert true cond = .ok () := rfl

theorem c_assert_enabled_false : c_assert false false = .error .assert_failed := rfl

/-- In every build the camera loop inserts all cameras when each carries its key as id. -/
theorem load_cameras_ok {D : Type} (ndebug : Bool) (camera_of_dict : D → Camera)
    (l : List (Int × D)) :
    ∀ acc : StdMap Camera, (∀ e ∈ l, (camera_of_dict e.2).CameraId = e.1) →
      load_cameras ndebug camera_of_dict l acc =
        .ok (l.foldl (fun acc e => acc.insert e.1 (camera_of_dict e.2)) acc) := by
  induction l with
  | nil =>
    intro acc _
    rfl
  | cons hd t ih =>
    intro acc h
    obtain ⟨k, d⟩ := hd
    have hk : k = (camera_of_dict d).CameraId := (h (k, d) (by simp)).symm
    unfold load_cameras
    simp only [← hk, decide_True, c_assert_of_true, List.foldl_cons]
    apply ih
    intro e he
    exact h e (List.mem_cons_of_mem _ he)

/-- With `NDEBUG` defined the camera loop inserts all cameras, whatever their ids. -/
theorem load_cameras_ndebug {D : Type} (camera_of_dict : D → Camera) (l : List (Int × D)) :
    ∀ acc : StdMap Camera,
      load_cameras true camera_of_dict l acc =
        .ok (l.foldl (fun acc e => acc.insert e.1 (camera_of_dict e.2)) acc) := by
  induction l with
  | nil =>
    intro acc
    rfl
  | cons hd t ih =>
    intro acc
    obtain ⟨k, d⟩ := hd
    unfold load_cameras
    simp only [c_assert_ndebug, List.foldl_cons]
    exact ih _

/-- With assertions enabled the camera loop aborts on a camera whose id differs from its
key. -/
theorem load_cameras_error {D : Type} (camera_of_dict : D → Camera) (l : List (Int × D)) :
    ∀ acc : StdMap Camera, (∃ e ∈ l, (camera_of_dict e.2).CameraId ≠ e.1) →
      load_cameras false camera_of_dict l acc = .error .assert_failed := by
  induction l with
  | nil =>
    intro acc h
    obtain ⟨e, he, _⟩ := h
    cases he
  | cons hd t ih =>
    intro acc h
    obtain ⟨k, d⟩ := hd
    unfold load_cameras
    by_cases hk : k = (camera_of_dict d).CameraId
    · simp only [← hk, decide_True, c_assert_of_true]
      apply ih
      obtain ⟨e, he, hne⟩ := h
      rcases List.mem_cons.1 he with he | he
      · subst he
        exact absurd hk.symm hne
      · exact ⟨e, he, hne⟩
    · simp only [hk, decide_False, c_assert_enabled_false]

/-- With assertions enabled the camera loop of deserialization fails exactly on a camera
whose id differs from its key. -/
theorem load_cameras_error_iff {D : Type} (camera_of_dict : D → Camera) (l : List (Int × D))
    (acc : StdMap Camera) :
    (∃ err, load_cameras false camera_of_dict l acc = .error err) ↔
      ∃ e ∈ l, (camera_of_dict e.2).CameraId ≠ e.1 := by
  constructor
  · rintro ⟨err, herr⟩
    by_contra hno
    push_neg at hno
    rw [load_cameras_ok false camera_of_dict l acc hno] at herr
    cases herr
  · intro h
    exact ⟨_, load_cameras_error camera_of_dict l acc h⟩

theorem mapValues_inverse {V W : Type} (f : V → W) (g : W → V) (h : ∀ v, g (f v) = v)
    (m : StdMap V) : (m.mapValues f).mapValues g = m := by
  apply StdMap.ext_entries
  simp only [StdMap.mapValues, List.map_map]
  have hid : ∀ e ∈ m.entries,
      ((fun e : Int × W => (e.1, g e.2)) ∘ fun e : Int × V => (e.1, f e.2)) e = id e := by
    intro e _
    simp [h]
  rw [List.map_congr_left hid, List.map_id]

theorem as_dict_eq {D : Type} (camera_as_dict : Camera → D) (image_as_dict : CameraImage → D)
    (r : ImageCollection) :
    as_dict camera_as_dict image_as_dict r =
      ⟨some (r.cameras.mapValues camera_as_dict), some (r.images.mapValues image_as_dict)⟩ := by
  unfold as_dict
  simp only [foldl_insert_empty_eq_mapValues]

/-- Deserialization, in every build, of a record whose cameras all carry their key as
id. -/
theorem of_dict_ok {D : Type} (ndebug : Bool) (camera_of_dict : D → Camera)
    (image_of_dict : D → CameraImage) (dict : PyDict D)
    (h : ∀ e ∈ (dict.cameras.getD StdMap.empty).entries, (camera_of_dict e.2).CameraId = e.1) :
    of_dict ndebug camera_of_dict image_of_dict dict =
      .ok ⟨(dict.cameras.getD StdMap.empty).mapValues camera_of_dict,
        (dict.images.getD StdMap.empty).mapValues image_of_dict⟩ := by
  have hc : (match dict.cameras with
      | some m => m
      | none => StdMap.empty) = dict.cameras.getD StdMap.empty := by
    cases dict.cameras <;> rfl
  have hi : (match dict.images with
      | some m => m
      | none => StdMap.empty) = dict.images.getD StdMap.empty := by
    cases dict.images <;> rfl
  unfold of_dict
  simp only [hc, hi]
  rw [load_cameras_ok ndebug camera_of_dict _ _ h]
  simp only [load_images_eq_foldl, foldl_insert_empty_eq_mapValues]

/-- Deserialization with `NDEBUG` defined returns for every record. -/
theorem of_dict_ndebug {D : Type} (camera_of_dict : D → Camera)
    (image_of_dict : D → CameraImage) (dict : PyDict D) :
    of_dict true camera_of_dict image_of_dict dict =
      .ok ⟨(dict.cameras.getD StdMap.empty).mapValues camera_of_dict,
        (dict.images.getD StdMap.empty).mapValues image_of_dict⟩ := by
  have hc : (match dict.cameras with
      | some m => m
      | none => StdMap.empty) = dict.cameras.getD StdMap.empty := by
    cases dict.cameras <;> rfl
  have hi : (match dict.images with
      | some m => m
      | none => StdMap.empty) = dict.images.getD StdMap.empty := by
    cases dict.images <;> rfl
  unfold of_dict
  simp only [hc, hi]
  rw [load_cameras_ndebug camera_of_dict _ _]
  simp only [load_images_eq_foldl, foldl_insert_empty_eq_mapValues]

/-- With assertions enabled, deserialization fails exactly on a camera whose id differs
from its key. -/
theorem of_dict_error_iff {D : Type} (camera_of_dict : D → Camera)
    (image_of_dict : D → CameraImage) (dict : PyDict D) :
    (∃ err, of_dict false camera_of_dict image_of_dict dict = .error err) ↔
      ∃ e ∈ (dict.cameras.getD StdMap.empty).entries, (camera_of_dict e.2).CameraId ≠ e.1 := by
  constructor
  · rintro ⟨err, herr⟩
    by_contra hno
    push_neg at hno
    rw [of_dict_ok false camera_of_dict image_of_dict dict hno] at herr
    cases herr
  · intro h
    have hc : (match dict.cameras with
        | some m => m
        | none => StdMap.empty) = dict.cameras.getD StdMap.empty := by
      cases dict.cameras <;> rfl
    refine ⟨.assert_failed, ?_⟩
    unfold of_dict
    simp only [hc]
    rw [load_cameras_error camera_of_dict _ _ h]

/-! ## Facts about the reconstruction -/

open LineReconstruction

/-- The camera loop of the constructor: on success every id has a view, and both maps
receive the ids in order. -/
theorem init_minimal_cameras_spec (X : Collaborators) (imagecols : ImageCollection)
    (ids : List Int) :
    ids.Pairwise (fun a b => a < b) →
    ∀ (ic : StdMap CameraView) (c : StdMap MinimalPinholeCamera)
      (ic1 : StdMap CameraView) (c1 : StdMap MinimalPinholeCamera),
      (∀ a ∈ ic.keys, ∀ b ∈ ids, a < b) → (∀ a ∈ c.keys, ∀ b ∈ ids, a < b) →
      init_minimal_cameras X imagecols ids ic c = .ok (ic1, c1) →
      ∃ views : List CameraView,
        List.Forall₂ (fun id v => imagecols.camview id = .ok v) ids views ∧
        ic1.entries = ic.entries ++ ids.zip views ∧
        c1.entries = c.entries ++ ids.zip (views.map X.to_minimal_camera) := by
  induction ids with
  | nil =>
    intro _ ic c ic1 c1 _ _ h
    simp only [init_minimal_cameras, Except.ok.injEq, Prod.mk.injEq] at h
    obtain ⟨h1, h2⟩ := h
    subst h1
    subst h2
    exact ⟨[], List.Forall₂.nil, by simp, by simp⟩
  | cons id rest ih =>
    intro hp ic c ic1 c1 hic hc h
    have hrest : rest.Pairwise (fun a b => a < b) := (List.pairwise_cons.1 hp).2
    have hlt : ∀ b ∈ rest, id < b := (List.pairwise_cons.1 hp).1
    unfold init_minimal_cameras at h
    cases hv : imagecols.camview id with
    | error e =>
      simp only [hv, reduceCtorEq] at h
    | ok v =>
      simp only [hv] at h
      have hic' : ∀ a ∈ (ic.insert id v).keys, ∀ b ∈ rest, a < b := by
        intro a ha b hb
        rw [StdMap.keys_insert] at ha
        rcases ha with ha | ha
        · rw [ha]
          exact hlt b hb
        · exact hic a ha b (List.mem_cons_of_mem _ hb)
      have hc' : ∀ a ∈ (c.insert id (X.to_minimal_camera v)).keys, ∀ b ∈ rest, a < b := by
        intro a ha b hb
        rw [StdMap.keys_insert] at ha
        rcases ha with ha | ha
        · rw [ha]
          exact hlt b hb
        · exact hc a ha b (List.mem_cons_of_mem _ hb)
      obtain ⟨views, hall, e1, e2⟩ := ih hrest _ _ ic1 c1 hic' hc' h
      refine ⟨v :: views, List.Forall₂.cons hv hall, ?_, ?_⟩
      · rw [e1, ic.insert_entries_of_lt id v (fun a ha => hic a ha id (by simp))]
        simp
      · rw [e2, c.insert_entries_of_lt id _ (fun a ha => hc a ha id (by simp))]
        simp

theorem get_img_ids_pairwise (r : ImageCollection) :
    r.get_img_ids.Pairwise (fun a b => a < b) :=
  r.images.ascending

/-- A successful construction keeps the tracks, derives one minimal line per track and
keys both camera maps by the registry's image ids. -/
theorem create_spec (X : Collaborators) (linetracks : List LineTrack)
    (imagecols : ImageCollection) (rec : LineReconstruction)
    (h : create X linetracks imagecols = .ok rec) :
    rec.init_tracks_ = linetracks ∧
    rec.lines_ = linetracks.map (fun t => X.to_minimal_line t.line) ∧
    ∃ views : List CameraView,
      List.Forall₂ (fun id v => imagecols.camview id = .ok v) imagecols.get_img_ids views ∧
      rec.init_cameras_.entries = imagecols.get_img_ids.zip views ∧
      rec.cameras_.entries = imagecols.get_img_ids.zip (views.map X.to_minimal_camera) := by
  unfold create at h
  cases hloop : init_minimal_cameras X imagecols imagecols.get_img_ids StdMap.empty
      StdMap.empty with
  | error e =>
    simp only [hloop, reduceCtorEq] at h
  | ok p =>
    obtain ⟨ic1, c1⟩ := p
    simp only [hloop, Except.ok.injEq] at h
    obtain ⟨views, hall, e1, e2⟩ := init_minimal_cameras_spec X imagecols _
      (get_img_ids_pairwise imagecols) StdMap.empty StdMap.empty ic1 c1
      (by simp [StdMap.keys, StdMap.empty, entryKeys])
      (by simp [StdMap.keys, StdMap.empty, entryKeys]) hloop
    subst h
    refine ⟨rfl, rfl, views, hall, ?_, ?_⟩
    · simpa [StdMap.empty] using e1
    · simpa [StdMap.empty] using e2

theorem create_keys (X : Collaborators) (linetracks : List LineTrack)
    (imagecols : ImageCollection) (rec : LineReconstruction)
    (h : create X linetracks imagecols = .ok rec) :
    rec.init_cameras_.keys = imagecols.get_img_ids ∧
    rec.cameras_.keys = imagecols.get_img_ids := by
  obtain ⟨_, _, views, hall, e1, e2⟩ := create_spec X linetracks imagecols rec h
  have hlen := hall.length_eq
  constructor
  · unfold StdMap.keys entryKeys
    rw [e1]
    exact List.map_fst_zip _ _ (le_of_eq hlen)
  · unfold StdMap.keys entryKeys
    rw [e2]
    exact List.map_fst_zip _ _ (by simp [hlen])

theorem GetCameras_keys (X : Collaborators) (rec : LineReconstruction) :
    (GetCameras X rec).keys = rec.cameras_.keys := by
  unfold GetCameras
  rw [foldl_insert_empty_eq_mapValues]
  exact StdMap.keys_mapValues _ _

/-- The loop of `GetLines` in closed form: one segment per remaining minimal line, from
that line and the 3D observations of the track at the same position. -/
theorem GetLines_loop_eq (X : Collaborators) (rec : LineReconstruction) (num_outliers : Int)
    (rest : List MinimalInfiniteLine3d) :
    ∀ (n : Nat) (cameras : StdMap CameraView), n + rest.length ≤ rec.init_tracks_.length →
      GetLines_loop X rec num_outliers rest n cameras =
        some (List.zipWith
          (fun m t => X.GetLineSegmentFromInfiniteLine3d (X.GetInfiniteLine m) t.line3d_list
            num_outliers)
          rest (rec.init_tracks_.drop n)) := by
  induction rest with
  | nil =>
    intro n cameras _
    simp [GetLines_loop]
  | cons m rest ih =>
    intro n cameras hn
    have hlt : n < rec.init_tracks_.length := by
      simp only [List.length_cons] at hn
      omega
    have hget : rec.init_tracks_.get? n = some rec.init_tracks_[n] := by
      rw [List.get?_eq_getElem?, List.getElem?_eq_getElem hlt]
    have hnext : n + 1 + rest.length ≤ rec.init_tracks_.length := by
      simp only [List.length_cons] at hn
      omega
    unfold GetLines_loop
    simp only [GetImageIds, GetLine3ds, hget, Option.map_some', ih (n + 1) _ hnext]
    rw [List.drop_eq_getElem_cons hlt, List.zipWith_cons_cons]

theorem GetLines_eq (X : Collaborators) (rec : LineReconstruction) (num_outliers : Int)
    (h : rec.lines_.length ≤ rec.init_tracks_.length) :
    GetLines X rec num_outliers =
      some (List.zipWith
        (fun m t => X.GetLineSegmentFromInfiniteLine3d (X.GetInfiniteLine m) t.line3d_list
          num_outliers)
        rec.lines_ rec.init_tracks_) := by
  unfold GetLines
  rw [GetLines_loop_eq X rec num_outliers rec.lines_ 0 _ (by omega)]
  simp

/-- The loop of `GetTracks` in closed form. -/
theorem GetTracks_loop_eq (rec : LineReconstruction) (lines : List Line3d) :
    ∀ (remaining track_id : Nat), track_id + remaining ≤ rec.init_tracks_.length →
      track_id + remaining ≤ lines.length →
      GetTracks_loop rec lines remaining track_id =
        some (List.zipWith (fun (t : LineTrack) (l : Line3d) => { t with line := l })
          ((rec.init_tracks_.drop track_id).take remaining)
          ((lines.drop track_id).take remaining)) := by
  intro remaining
  induction remaining with
  | zero =>
    intro track_id _ _
    simp [GetTracks_loop]
  | succ remaining ih =>
    intro track_id h1 h2
    have hlt1 : track_id < rec.init_tracks_.length := by omega
    have hlt2 : track_id < lines.length := by omega
    have hget1 : rec.init_tracks_.get? track_id = some rec.init_tracks_[track_id] := by
      rw [List.get?_eq_getElem?, List.getElem?_eq_getElem hlt1]
    have hget2 : lines.get? track_id = some lines[track_id] := by
      rw [List.get?_eq_getElem?, List.getElem?_eq_getElem hlt2]
    unfold GetTracks_loop
    simp only [hget1, hget2, ih (track_id + 1) (by omega) (by omega)]
    rw [List.drop_eq_getElem_cons hlt1, List.drop_eq_getElem_cons hlt2]
    simp only [List.take_succ_cons, List.zipWith_cons_cons]

theorem GetLine3ds_eq_some_iff (rec : LineReconstruction) (i : Nat) (observed : List Line3d) :
    GetLine3ds rec i = some observed ↔
      ∃ t, rec.init_tracks_[i]? = some t ∧ t.line3d_list = observed := by
  unfold GetLine3ds
  rw [List.get?_eq_getElem?]
  cases rec.init_tracks_[i]? with
  | none => simp
  | some t => simp

/-! ## Results of the constructors from lists -/

theorem mem_enumFrom_zero_map {V W : Type} (f : V → W) (xs : List V) (i : Nat) (y : W) :
    ((i : Int), y) ∈ (xs.enumFrom 0).map (fun p => ((p.1 : Int), f p.2)) ↔
      ∃ x, xs[i]? = some x ∧ f x = y := by
  simp only [List.mem_map, Prod.mk.injEq, Prod.exists]
  constructor
  · rintro ⟨j, x, hmem, hj, hy⟩
    have hji : j = i := by omega
    subst hji
    have := (List.mk_add_mem_enumFrom_iff_getElem? (n := 0) (i := j) (x := x) (l := xs)).1
      (by simpa using hmem)
    exact ⟨x, this, hy⟩
  · rintro ⟨x, hx, hy⟩
    refine ⟨i, x, ?_, rfl, hy⟩
    have := (List.mk_add_mem_enumFrom_iff_getElem? (n := 0) (i := i) (x := x) (l := xs)).2 hx
    simpa using this

/-- The map built from a vector holds `input[i]` under `i`. -/
theorem mem_init_from_vector_entries {V : Type} (xs : List V) (i : Nat) (x : V) :
    ((i : Int), x) ∈ (insert_from_vector xs 0 StdMap.empty).entries ↔ xs[i]? = some x := by
  rw [init_from_vector_entries]
  have h := mem_enumFrom_zero_map (fun v : V => v) xs i x
  simpa using h

/-- The image side of the constructor from views is the vector loop over the converted
views. -/
theorem of_camviews_loop_images (rest : List CameraView) :
    ∀ (n : Nat) (r r1 : ImageCollection), of_camviews_loop rest n r = .ok r1 →
      r1.images = insert_from_vector (rest.map CameraImage.of_camview) n r.images := by
  induction rest with
  | nil =>
    intro n r r1 h
    simp only [of_camviews_loop, Except.ok.injEq] at h
    subst h
    rfl
  | cons v rest ih =>
    intro n r r1 h
    unfold of_camviews_loop at h
    simp only [] at h
    simp only [List.map_cons, insert_from_vector]
    split at h
    · split at h
      · cases h
      · split at h
        · exact ih _ _ _ h
        · cases h
    · exact ih _ _ _ h

/-- The registry produced by the constructor from views. -/
theorem of_camviews_spec (camviews : List CameraView) (r : ImageCollection)
    (h : of_camviews camviews = .ok r) :
    ConsistentCams camviews ∧ CamerasOf r.cameras camviews ∧
    r.images = insert_from_vector (camviews.map CameraImage.of_camview) 0 StdMap.empty := by
  unfold of_camviews at h
  have hspec := of_camviews_loop_spec camviews 0 ⟨StdMap.empty, StdMap.empty⟩ []
    camerasOf_empty
  rw [h] at hspec
  simp only [List.nil_append] at hspec
  exact ⟨hspec.1, hspec.2, of_camviews_loop_images camviews 0 _ r h⟩

/-! ## Bulk getters -/

/-- A successful `collect` holds, position by position, the value of `f` at the key. -/
theorem collect_ok_getElem? {A V : Type} (f : Int → Except Error A) (l : List (Int × V)) :
    ∀ (out : List A), collect f l = .ok out →
      out.length = l.length ∧
      ∀ (i : Nat) (e : Int × V), l[i]? = some e → ∃ a, out[i]? = some a ∧ f e.1 = .ok a := by
  induction l with
  | nil =>
    intro out h
    simp only [collect, Except.ok.injEq] at h
    subst h
    simp
  | cons hd t ih =>
    intro out h
    obtain ⟨id, v⟩ := hd
    unfold collect at h
    cases hf : f id with
    | error e => simp only [hf, reduceCtorEq] at h
    | ok a =>
      cases hrest : collect f t with
      | error e => simp only [hf, hrest, reduceCtorEq] at h
      | ok rest =>
        simp only [hf, hrest, Except.ok.injEq] at h
        subst h
        obtain ⟨hlen, hget⟩ := ih rest hrest
        refine ⟨by simp [hlen], ?_⟩
        intro i e hi
        cases i with
        | zero =>
          simp only [List.getElem?_cons_zero, Option.some.injEq] at hi
          subst hi
          exact ⟨a, by simp, hf⟩
        | succ j =>
          simp only [List.getElem?_cons_succ] at hi ⊢
          exact hget j e hi

/-- The loop `collect` succeeds when `f` succeeds at every key. -/
theorem collect_ok_of_forall {A V : Type} (f : Int → Except Error A) (l : List (Int × V))
    (h : ∀ e ∈ l, ∃ a, f e.1 = .ok a) : ∃ out, collect f l = .ok out := by
  induction l with
  | nil => exact ⟨[], rfl⟩
  | cons hd t ih =>
    obtain ⟨id, v⟩ := hd
    obtain ⟨a, ha⟩ := h (id, v) (by simp)
    obtain ⟨rest, hrest⟩ := ih (fun e he => h e (List.mem_cons_of_mem _ he))
    refine ⟨a :: rest, ?_⟩
    unfold collect
    simp only [ha, hrest]

/-- The loop `collect` fails when `f` fails at some key. -/
theorem collect_error_of_exists {A V : Type} (f : Int → Except Error A) (l : List (Int × V))
    (h : ∃ e ∈ l, ∃ err, f e.1 = .error err) : ∃ err, collect f l = .error err := by
  rw [except_error_iff_not_ok]
  rintro ⟨out, hout⟩
  obtain ⟨e, he, err, herr⟩ := h
  obtain ⟨i, hi⟩ := List.mem_iff_getElem?.1 he
  obtain ⟨a, _, ha⟩ := (collect_ok_getElem? f l out hout).2 i e hi
  rw [herr] at ha
  cases ha

theorem getElem?_map_fst_snd {V : Type} (l : List (Int × V)) (i : Nat) (k : Int)
    (h : (l.map Prod.fst)[i]? = some k) :
    ∃ v, l[i]? = some (k, v) ∧ (l.map Prod.snd)[i]? = some v := by
  rw [List.getElem?_map] at h
  cases hl : l[i]? with
  | none => simp [hl] at h
  | some e =>
    obtain ⟨k1, v⟩ := e
    simp only [hl, Option.map_some', Option.some.injEq] at h
    subst h
    exact ⟨v, rfl, by simp [List.getElem?_map, hl]⟩

/-! ## Setters -/

/-- The entries after `m[id] = v` for a stored key `id`. -/
theorem StdMap.mem_assign_of_mem {V : Type} (m : StdMap V) (id : Int) (v : V)
    (h : id ∈ m.keys) (k : Int) (w : V) :
    (k, w) ∈ (m.assign id v).entries ↔
      (k = id ∧ w = v) ∨ (k ≠ id ∧ (k, w) ∈ m.entries) := by
  rw [m.assign_entries_of_mem id v h, List.mem_map]
  constructor
  · rintro ⟨e, he, heq⟩
    by_cases hk : e.1 = id
    · simp only [hk, if_true, Prod.mk.injEq] at heq
      exact Or.inl ⟨heq.1.symm, heq.2.symm⟩
    · simp only [hk, if_false] at heq
      subst heq
      exact Or.inr ⟨hk, he⟩
  · rintro (⟨hk, hw⟩ | ⟨hk, hmem⟩)
    · obtain ⟨v0, hv0⟩ := (m.mem_keys_iff id).1 h
      refine ⟨(id, v0), hv0, ?_⟩
      simp [hk, hw]
    · exact ⟨(k, w), hmem, by simp [hk]⟩

/-! ## Copy construction -/

theorem mapValues_id {V : Type} (m : StdMap V) : m.mapValues id = m := by
  apply StdMap.ext_entries
  simp [StdMap.mapValues]

theorem copy_cameras_eq_foldl (r : ImageCollection) (l : List (Int × Camera)) :
    (∀ e ∈ l, e ∈ r.cameras.entries) → ∀ acc : StdMap Camera,
      copy_cameras r (l.map Prod.fst) acc =
        .ok (l.foldl (fun acc e => acc.insert e.1 (id e.2)) acc) := by
  induction l with
  | nil =>
    intro _ acc
    rfl
  | cons hd t ih =>
    intro h acc
    obtain ⟨k, c⟩ := hd
    have hc : r.cam k = .ok c := (cam_eq_ok_iff r k c).2 (h (k, c) (by simp))
    simp only [List.map_cons, copy_cameras, hc, List.foldl_cons]
    exact ih (fun e he => h e (List.mem_cons_of_mem _ he)) _

theorem copy_images_eq_foldl (r : ImageCollection) (l : List (Int × CameraImage)) :
    (∀ e ∈ l, e ∈ r.images.entries) → ∀ acc : StdMap CameraImage,
      copy_images r (l.map Prod.fst) acc =
        .ok (l.foldl (fun acc e => acc.insert e.1 (id e.2)) acc) := by
  induction l with
  | nil =>
    intro _ acc
    rfl
  | cons hd t ih =>
    intro h acc
    obtain ⟨k, im⟩ := hd
    have hc : r.camimage k = .ok im := (camimage_eq_ok_iff r k im).2 (h (k, im) (by simp))
    simp only [List.map_cons, copy_images, hc, List.foldl_cons]
    exact ih (fun e he => h e (List.mem_cons_of_mem _ he)) _

/-! ## Distortion query -/

theorem IsUndistorted_loop_iff (camera_is_undistorted : Camera → Bool)
    (l : List (Int × Camera)) :
    IsUndistorted_loop camera_is_undistorted l = true ↔
      ∀ e ∈ l, camera_is_undistorted e.2 = true := by
  induction l with
  | nil => simp [IsUndistorted_loop]
  | cons hd t ih =>
    obtain ⟨k, c⟩ := hd
    unfold IsUndistorted_loop
    cases hc : camera_is_undistorted c with
    | false => simp [hc]
    | true => simp [hc, ih]

/-! ## Views of a registry built from views -/

/-- Position `i` of the map built from a vector. -/
theorem init_from_vector_getElem? {V : Type} (xs : List V) (i : Nat) :
    (insert_from_vector xs 0 StdMap.empty).entries[i]? = xs[i]?.map (fun x => ((i : Int), x)) := by
  rw [init_from_vector_entries, List.getElem?_map, List.getElem?_enumFrom]
  cases xs[i]? with
  | none => rfl
  | some x => simp

/-- In a registry built from views, `camview(i)` is view `i`. -/
theorem of_camviews_camview (camviews : List CameraView) (r : ImageCollection)
    (h : of_camviews camviews = .ok r) (i : Nat) (v : CameraView)
    (hi : camviews[i]? = some v) : r.camview (i : Int) = .ok v := by
  obtain ⟨_, hcams, himgs⟩ := of_camviews_spec camviews r h
  rw [camview_eq_ok_iff]
  refine ⟨CameraImage.of_camview v, v.cam, ?_, ?_, ?_⟩
  · rw [himgs, mem_init_from_vector_entries, List.getElem?_map, hi]
    rfl
  · exact (hcams _ _).2 ⟨rfl, v, List.mem_iff_getElem?.2 ⟨i, hi⟩, rfl⟩
  · cases v
    rfl

/-! ## Construction of the reconstruction -/

theorem camview_isOk_iff (r : ImageCollection) (id : Int) :
    (∃ v, r.camview id = .ok v) ↔
      ∃ im, (id, im) ∈ r.images.entries ∧ im.cam_id ∈ r.cameras.keys := by
  simp only [camview_eq_ok_iff, StdMap.mem_keys_iff]
  constructor
  · rintro ⟨v, im, c, him, hc, _⟩
    exact ⟨im, him, c, hc⟩
  · rintro ⟨im, him, c, hc⟩
    exact ⟨_, im, c, him, hc, rfl⟩

/-- I1 says that `camview` returns for every image id. -/
theorem I1_iff_camview (r : ImageCollection) :
    I1 r ↔ ∀ id ∈ r.get_img_ids, ∃ v, r.camview id = .ok v := by
  constructor
  · intro hI id hid
    obtain ⟨im, him⟩ := (r.images.mem_keys_iff id).1 hid
    exact (camview_isOk_iff r id).2 ⟨im, him, hI (id, im) him⟩
  · intro h e he
    obtain ⟨im, him, hc⟩ := (camview_isOk_iff r e.1).1 (h e.1 (mem_entryKeys_of_mem he))
    have heq : im = e.2 := entry_unique r.images.ascending him he
    rw [← heq]
    exact hc

theorem init_minimal_cameras_ok_of_forall (X : Collaborators) (imagecols : ImageCollection)
    (ids : List Int) (h : ∀ id ∈ ids, ∃ v, imagecols.camview id = .ok v) :
    ∀ (ic : StdMap CameraView) (c : StdMap MinimalPinholeCamera),
      ∃ res, init_minimal_cameras X imagecols ids ic c = .ok res := by
  induction ids with
  | nil =>
    intro ic c
    exact ⟨_, rfl⟩
  | cons id rest ih =>
    intro ic c
    obtain ⟨v, hv⟩ := h id (by simp)
    unfold init_minimal_cameras
    simp only [hv]
    exact ih (fun j hj => h j (List.mem_cons_of_mem _ hj)) _ _

theorem forall₂_mem_zip {A B : Type} {R : A → B → Prop} {l1 : List A} {l2 : List B}
    (h : List.Forall₂ R l1 l2) : ∀ a ∈ l1, ∃ b, (a, b) ∈ l1.zip l2 ∧ R a b := by
  induction h with
  | nil =>
    intro a ha
    cases ha
  | cons hab _ ih =>
    intro a ha
    rcases List.mem_cons.1 ha with ha | ha
    · subst ha
      exact ⟨_, by simp, hab⟩
    · obtain ⟨b, hb, hr⟩ := ih a ha
      exact ⟨b, by simp [hb], hr⟩

/-- Construction returns exactly for the registries in which `camview` returns for every
image id. -/
theorem create_isOk_iff (X : Collaborators) (linetracks : List LineTrack)
    (imagecols : ImageCollection) :
    (∃ rec, create X linetracks imagecols = .ok rec) ↔
      ∀ id ∈ imagecols.get_img_ids, ∃ v, imagecols.camview id = .ok v := by
  constructor
  · rintro ⟨rec, hrec⟩ id hid
    obtain ⟨_, _, views, hall, _, _⟩ := create_spec X linetracks imagecols rec hrec
    obtain ⟨v, _, hv⟩ := forall₂_mem_zip hall id hid
    exact ⟨v, hv⟩
  · intro h
    obtain ⟨res, hres⟩ := init_minimal_cameras_ok_of_forall X imagecols imagecols.get_img_ids h
      StdMap.empty StdMap.empty
    unfold create
    simp only [hres]
    exact ⟨_, rfl⟩

/-! ## `GetLines` and the camera layer -/

/-- The loop of `GetLines` reads the reconstruction only through `init_tracks_`, and its
result does not depend on the local map of views. -/
theorem GetLines_loop_congr (X : Collaborators) (rec1 rec2 : LineReconstruction)
    (num_outliers : Int) (htracks : rec1.init_tracks_ = rec2.init_tracks_)
    (rest : List MinimalInfiniteLine3d) :
    ∀ (n : Nat) (cameras1 cameras2 : StdMap CameraView),
      GetLines_loop X rec1 num_outliers rest n cameras1 =
        GetLines_loop X rec2 num_outliers rest n cameras2 := by
  induction rest with
  | nil =>
    intro n cameras1 cameras2
    rfl
  | cons m rest ih =>
    intro n cameras1 cameras2
    unfold GetLines_loop
    simp only [GetImageIds, GetLine3ds, htracks]
    cases rec2.init_tracks_.get? n with
    | none => rfl
    | some t =>
      simp only [Option.map_some']
      rw [ih (n + 1) _ (gather_views X.default_camview t.image_id_list cameras2 []).1]

/-! ## The claims -/

/-- C1 (counterexample): the constructor from a camera list and an image list accepts an
empty camera list together with an image whose camera id is 7; the registry it produces
violates I1. -/
theorem C1_counterexample :
    ¬ I1 (of_vectors [] [⟨7, ⟨[]⟩, "a.png"⟩]) := by
  decide

/-- C1 (amended): the constructors from (camera map, image list), (camera list, image map)
and (camera list, image list) validate nothing and always produce a registry; that
registry satisfies I1 exactly when every input image's camera id is among the resulting
camera ids, which are the keys of the camera map, respectively the positions of the
camera list. -/
theorem C1_constructors_I1_iff (cams_map : StdMap Camera) (imgs_map : StdMap CameraImage)
    (cams : List Camera) (imgs : List CameraImage) :
    (I1 (of_map_vector cams_map imgs) ↔ ∀ im ∈ imgs, im.cam_id ∈ cams_map.keys) ∧
    (I1 (of_vector_map cams imgs_map) ↔
      ∀ e ∈ imgs_map.entries, 0 ≤ e.2.cam_id ∧ e.2.cam_id < (cams.length : Int)) ∧
    (I1 (of_vectors cams imgs) ↔
      ∀ im ∈ imgs, 0 ≤ im.cam_id ∧ im.cam_id < (cams.length : Int)) := by
  refine ⟨?_, ?_, ?_⟩
  · rw [I1_iff_values]
    simp only [of_map_vector, init_images_from_vector, init_from_vector_values]
  · unfold I1
    simp only [of_vector_map, init_cameras_from_vector, mem_init_from_vector_keys]
  · rw [I1_iff_values]
    simp only [of_vectors, init_images_from_vector, init_cameras_from_vector,
      init_from_vector_values, mem_init_from_vector_keys]

/-- C2 (counterexample): on a registry with camera 0 and image 0 (which satisfies I1),
`change_image(0, im)` with `im.cam_id = 9` succeeds and the registry afterwards violates
I1. -/
theorem C2_counterexample :
    I1 (of_vectors [⟨0, []⟩] [⟨0, ⟨[]⟩, "a.png"⟩]) ∧
    ((of_vectors [⟨0, []⟩] [⟨0, ⟨[]⟩, "a.png"⟩]).change_image 0 ⟨9, ⟨[]⟩, "b.png"⟩).1 = .ok () ∧
    ¬ I1 ((of_vectors [⟨0, []⟩] [⟨0, ⟨[]⟩, "a.png"⟩]).change_image 0 ⟨9, ⟨[]⟩, "b.png"⟩).2 := by
  decide

/-- C2 (amended): on a registry satisfying I1, every successful `change_camera`,
`change_image_name` and `set_max_image_dim` leaves a registry that satisfies I1 and has
the same camera keys and image keys; a successful `change_image(id, im)` keeps both key
lists, and the registry afterwards satisfies I1 exactly when `im.cam_id` is a camera
key. -/
theorem C2_setters_preserve (camera_set_max_image_dim : Int → Camera → Camera)
    (r : ImageCollection) (hI : I1 r) :
    (∀ id c r1, r.change_camera id c = (.ok (), r1) →
      I1 r1 ∧ r1.cameras.keys = r.cameras.keys ∧ r1.images.keys = r.images.keys) ∧
    (∀ id s r1, r.change_image_name id s = (.ok (), r1) →
      I1 r1 ∧ r1.cameras.keys = r.cameras.keys ∧ r1.images.keys = r.images.keys) ∧
    (∀ val r1, r.set_max_image_dim camera_set_max_image_dim val = (.ok (), r1) →
      I1 r1 ∧ r1.cameras.keys = r.cameras.keys ∧ r1.images.keys = r.images.keys) ∧
    (∀ id im r1, r.change_image id im = (.ok (), r1) →
      (I1 r1 ↔ im.cam_id ∈ r.cameras.keys) ∧
      r1.cameras.keys = r.cameras.keys ∧ r1.images.keys = r.images.keys) := by
  refine ⟨?_, ?_, ?_, ?_⟩
  · intro id c r1 h
    unfold change_camera at h
    by_cases hex : r.exist_cam id = true
    · simp only [hex, if_true, Prod.mk.injEq, true_and] at h
      have hk := r.cameras.keys_assign_of_mem id c ((r.exist_cam_iff id).1 hex)
      subst h
      refine ⟨?_, hk, rfl⟩
      intro e he
      show e.2.cam_id ∈ (r.cameras.assign id c).keys
      rw [hk]
      exact hI e he
    · simp only [hex, if_false, Prod.mk.injEq, reduceCtorEq, false_and] at h
  · intro id s r1 h
    unfold change_image_name at h
    by_cases hex : r.exist_image id = true
    · simp only [hex, if_true, Prod.mk.injEq, true_and] at h
      have hid := (r.exist_image_iff id).1 hex
      obtain ⟨v, hv⟩ := (r.images.mem_keys_iff id).1 hid
      have hsub : r.images.subscript id CameraImage.default_constructed = (r.images, v) := by
        unfold StdMap.subscript
        simp only [r.images.insert_of_mem id _ hid, (r.images.find?_eq_some_iff id v).2 hv,
          Option.getD_some]
      rw [hsub] at h
      subst h
      refine ⟨?_, rfl, r.images.keys_assign_of_mem id _ hid⟩
      apply (I1_assign_image r id (v.SetImageName s) hid hI).2
      exact hI (id, v) hv
    · simp only [hex, if_false, Prod.mk.injEq, reduceCtorEq, false_and] at h
  · intro val r1 h
    unfold set_max_image_dim at h
    simp only [Prod.mk.injEq, true_and] at h
    subst h
    refine ⟨?_, r.cameras.keys_mapValues _, rfl⟩
    intro e he
    show e.2.cam_id ∈ (r.cameras.mapValues (camera_set_max_image_dim val)).keys
    rw [r.cameras.keys_mapValues]
    exact hI e he
  · intro id im r1 h
    unfold change_image at h
    by_cases hex : r.exist_image id = true
    · simp only [hex, if_true, Prod.mk.injEq, true_and] at h
      have hid := (r.exist_image_iff id).1 hex
      subst h
      exact ⟨I1_assign_image r id im hid hI, rfl, r.images.keys_assign_of_mem id im hid⟩
    · simp only [hex, if_false, Prod.mk.injEq, reduceCtorEq, false_and] at h

/-- C2 (witness): on the registry with camera 0 and image 0, `change_camera(0, c)`
succeeds and I1 still holds. -/
theorem C2_setters_preserve_witness :
    I1 (of_vectors [⟨0, []⟩] [⟨0, ⟨[]⟩, "a.png"⟩]) ∧
    I1 ((of_vectors [⟨0, []⟩] [⟨0, ⟨[]⟩, "a.png"⟩]).change_camera 0 ⟨4, [1]⟩).2 :=
  ⟨by decide,
    ((C2_setters_preserve (fun _ c => c) (of_vectors [⟨0, []⟩] [⟨0, ⟨[]⟩, "a.png"⟩])
      (by decide)).1 0 ⟨4, [1]⟩ _ (by decide)).1⟩

/-- C3: construction from a list of views fails exactly when two positions `i < j` carry
cameras with the same `CameraId()` that are not equal; in particular it fails when view 0
and view 2 both carry camera id 5 with different cameras. -/
theorem C3_of_camviews_fails_iff (camviews : List CameraView) :
    ((∃ e, of_camviews camviews = .error e) ↔
      ∃ (i j : Nat) (vi vj : CameraView), i < j ∧ camviews[i]? = some vi ∧ camviews[j]? = some vj ∧
        vi.cam.CameraId = vj.cam.CameraId ∧ vi.cam ≠ vj.cam) ∧
    (∀ v0 v2, camviews[0]? = some v0 → camviews[2]? = some v2 →
      v0.cam.CameraId = 5 → v2.cam.CameraId = 5 → v0.cam ≠ v2.cam →
      ∃ e, of_camviews camviews = .error e) := by
  have hiff := (of_camviews_error_iff camviews).trans (not_consistentCams_iff camviews)
  refine ⟨hiff, ?_⟩
  intro v0 v2 h0 h2 hid0 hid2 hne
  exact hiff.2 ⟨0, 2, v0, v2, by decide, h0, h2, hid0.trans hid2.symm, hne⟩

/-- C3 (witness): views 0 and 2 carry camera id 5 with different intrinsics, and the
construction fails. -/
theorem C3_of_camviews_fails_iff_witness :
    ∃ e, of_camviews [⟨⟨5, [1]⟩, ⟨[]⟩, "a.png"⟩, ⟨⟨1, []⟩, ⟨[]⟩, "b.png"⟩,
      ⟨⟨5, [2]⟩, ⟨[]⟩, "c.png"⟩] = .error e :=
  (C3_of_camviews_fails_iff [⟨⟨5, [1]⟩, ⟨[]⟩, "a.png"⟩, ⟨⟨1, []⟩, ⟨[]⟩, "b.png"⟩,
      ⟨⟨5, [2]⟩, ⟨[]⟩, "c.png"⟩]).2 ⟨⟨5, [1]⟩, ⟨[]⟩, "a.png"⟩ ⟨⟨5, [2]⟩, ⟨[]⟩, "c.png"⟩
    rfl rfl rfl rfl (by decide)

/-- C4: `cam(id)` fails exactly when `id` is no camera key and otherwise returns the
stored camera; `camimage(id)`, `campose(id)` and `image_name(id)` fail exactly when `id`
is no image key and otherwise return the stored record, its pose and its name. Every
value returned is taken from a stored entry, never a default. -/
theorem C4_lookups (r : ImageCollection) (id : Int) :
    ((∃ e, r.cam id = .error e) ↔ id ∉ r.cameras.keys) ∧
    (∀ c, r.cam id = .ok c ↔ (id, c) ∈ r.cameras.entries) ∧
    ((∃ e, r.camimage id = .error e) ↔ id ∉ r.images.keys) ∧
    (∀ im, r.camimage id = .ok im ↔ (id, im) ∈ r.images.entries) ∧
    ((∃ e, r.campose id = .error e) ↔ id ∉ r.images.keys) ∧
    (∀ p, r.campose id = .ok p ↔ ∃ im, (id, im) ∈ r.images.entries ∧ im.pose = p) ∧
    ((∃ e, r.image_name id = .error e) ↔ id ∉ r.images.keys) ∧
    (∀ s, r.image_name id = .ok s ↔
      ∃ im, (id, im) ∈ r.images.entries ∧ im.image_name = s) := by
  refine ⟨?_, cam_eq_ok_iff r id, ?_, camimage_eq_ok_iff r id, ?_, campose_eq_ok_iff r id, ?_,
    image_name_eq_ok_iff r id⟩
  · rw [except_error_iff_not_ok, r.cameras.mem_keys_iff]
    simp only [cam_eq_ok_iff]
  · rw [except_error_iff_not_ok, r.images.mem_keys_iff]
    simp only [camimage_eq_ok_iff]
  · rw [except_error_iff_not_ok, r.images.mem_keys_iff]
    simp only [campose_eq_ok_iff]
    constructor
    · rintro h ⟨im, him⟩
      exact h ⟨im.pose, im, him, rfl⟩
    · rintro h ⟨p, im, him, _⟩
      exact h ⟨im, him⟩
  · rw [except_error_iff_not_ok, r.images.mem_keys_iff]
    simp only [image_name_eq_ok_iff]
    constructor
    · rintro h ⟨im, him⟩
      exact h ⟨im.image_name, im, him, rfl⟩
    · rintro h ⟨p, im, him, _⟩
      exact h ⟨im, him⟩

/-- C5: `camview(id)` succeeds exactly when `id` is an image key whose record's `cam_id`
is a camera key, and then returns the view composed of `cameras[images[id].cam_id]`,
`images[id].pose` and `images[id].image_name()`; for an absent image id, or a stored
image whose camera id is absent, it fails. -/
theorem C5_camview (r : ImageCollection) (id : Int) :
    ((∃ v, r.camview id = .ok v) ↔
      ∃ im, (id, im) ∈ r.images.entries ∧ im.cam_id ∈ r.cameras.keys) ∧
    (∀ v, r.camview id = .ok v ↔
      ∃ im c, (id, im) ∈ r.images.entries ∧ (im.cam_id, c) ∈ r.cameras.entries ∧
        v = ⟨c, im.pose, im.image_name⟩) ∧
    (id ∉ r.images.keys → ∃ e, r.camview id = .error e) ∧
    (∀ im, (id, im) ∈ r.images.entries → im.cam_id ∉ r.cameras.keys →
      ∃ e, r.camview id = .error e) := by
  have hok : (∃ v, r.camview id = .ok v) ↔
      ∃ im, (id, im) ∈ r.images.entries ∧ im.cam_id ∈ r.cameras.keys := by
    simp only [camview_eq_ok_iff, StdMap.mem_keys_iff]
    constructor
    · rintro ⟨v, im, c, him, hc, _⟩
      exact ⟨im, him, c, hc⟩
    · rintro ⟨im, him, c, hc⟩
      exact ⟨_, im, c, him, hc, rfl⟩
  refine ⟨hok, camview_eq_ok_iff r id, ?_, ?_⟩
  · intro hid
    rw [except_error_iff_not_ok, hok]
    rintro ⟨im, him, _⟩
    exact hid (mem_entryKeys_of_mem him)
  · intro im him hc
    rw [except_error_iff_not_ok, hok]
    rintro ⟨im1, him1, hc1⟩
    rw [entry_unique r.images.ascending him1 him] at hc1
    exact hc hc1

/-- C5 (witness): image 0 refers to camera id 7, which is absent, and `camview(0)`
fails. -/
theorem C5_camview_witness :
    ∃ e, (of_vectors [] [⟨7, ⟨[]⟩, "a.png"⟩]).camview 0 = .error e :=
  (C5_camview (of_vectors [] [⟨7, ⟨[]⟩, "a.png"⟩]) 0).2.2.2 ⟨7, ⟨[]⟩, "a.png"⟩
    (by decide) (by decide)

/-- C6: `change_camera(id, c)` with `id` no camera key, and `change_image(id, im)` or
`change_image_name(id, s)` with `id` no image key, fail and leave the registry, both
mappings included, as it was. -/
theorem C6_failed_setters_keep_registry (r : ImageCollection) (id : Int) :
    (id ∉ r.cameras.keys → ∀ c, ∃ e, r.change_camera id c = (.error e, r)) ∧
    (id ∉ r.images.keys → ∀ im, ∃ e, r.change_image id im = (.error e, r)) ∧
    (id ∉ r.images.keys → ∀ s, ∃ e, r.change_image_name id s = (.error e, r)) := by
  refine ⟨?_, ?_, ?_⟩
  · intro hid c
    have hex : ¬ r.exist_cam id = true := fun h => hid ((r.exist_cam_iff id).1 h)
    exact ⟨.check_failed, by unfold change_camera; rw [if_neg hex]⟩
  · intro hid im
    have hex : ¬ r.exist_image id = true := fun h => hid ((r.exist_image_iff id).1 h)
    exact ⟨.check_failed, by unfold change_image; rw [if_neg hex]⟩
  · intro hid s
    have hex : ¬ r.exist_image id = true := fun h => hid ((r.exist_image_iff id).1 h)
    exact ⟨.check_failed, by unfold change_image_name; rw [if_neg hex]⟩

/-- C6 (witness): `change_camera(3, newCam)` on a registry whose only camera id is 0
fails and the registry is unchanged. -/
theorem C6_failed_setters_keep_registry_witness :
    ∃ e, (of_vectors [⟨0, []⟩] [⟨0, ⟨[]⟩, "a.png"⟩]).change_camera 3 ⟨3, [8]⟩ =
      (.error e, of_vectors [⟨0, []⟩] [⟨0, ⟨[]⟩, "a.png"⟩]) :=
  (C6_failed_setters_keep_registry (of_vectors [⟨0, []⟩] [⟨0, ⟨[]⟩, "a.png"⟩]) 3).1
    (by decide) ⟨3, [8]⟩

/-- C7 (counterexample): the registry built from the one-camera list whose camera has
id 5 stores that camera under key 0; with conversions that are inverse to each other
and assertions enabled (`NDEBUG` not defined), deserializing its serialization fails. -/
theorem C7_counterexample :
    (∀ c : Camera, Sum.elim id (fun _ => (⟨0, []⟩ : Camera)) (Sum.inl c : Camera ⊕ CameraImage) = c) ∧
    (∀ im : CameraImage,
      Sum.elim (fun _ => (⟨0, ⟨[]⟩, "none"⟩ : CameraImage)) id (Sum.inr im : Camera ⊕ CameraImage)
        = im) ∧
    of_dict false (Sum.elim id (fun _ => (⟨0, []⟩ : Camera)))
      (Sum.elim (fun _ => (⟨0, ⟨[]⟩, "none"⟩ : CameraImage)) id)
      (as_dict Sum.inl Sum.inr (of_vectors [⟨5, []⟩] [])) = .error .assert_failed :=
  ⟨fun _ => rfl, fun _ => rfl, by decide⟩

/-- C7 (amended): assuming the external Camera and CameraImage record conversions are
inverse to each other, in every build and for every registry in which every camera is
stored under its own `CameraId()`, deserializing the serialized registry succeeds and
yields the registry itself; with assertions enabled (`NDEBUG` not defined), the
deserialization fails when some camera's id differs from its key. -/
theorem C7_roundtrip {D : Type} (ndebug : Bool) (camera_as_dict : Camera → D)
    (camera_of_dict : D → Camera) (image_as_dict : CameraImage → D)
    (image_of_dict : D → CameraImage)
    (hc : ∀ c, camera_of_dict (camera_as_dict c) = c)
    (hi : ∀ im, image_of_dict (image_as_dict im) = im) (r : ImageCollection) :
    ((∀ e ∈ r.cameras.entries, e.2.CameraId = e.1) →
      of_dict ndebug camera_of_dict image_of_dict (as_dict camera_as_dict image_as_dict r)
        = .ok r) ∧
    (ndebug = false → (∃ e ∈ r.cameras.entries, e.2.CameraId ≠ e.1) →
      ∃ err, of_dict ndebug camera_of_dict image_of_dict
        (as_dict camera_as_dict image_as_dict r) = .error err) := by
  constructor
  · intro h
    rw [as_dict_eq, of_dict_ok]
    · simp only [Option.getD_some, mapValues_inverse _ _ hc, mapValues_inverse _ _ hi]
    · intro e he
      simp only [Option.getD_some, StdMap.mapValues, List.mem_map] at he
      obtain ⟨e0, he0, rfl⟩ := he
      simp only [hc]
      exact h e0 he0
  · rintro hbuild ⟨e, he, hne⟩
    subst hbuild
    rw [as_dict_eq, of_dict_error_iff]
    refine ⟨(e.1, camera_as_dict e.2), ?_, ?_⟩
    · simp only [Option.getD_some, StdMap.mapValues, List.mem_map]
      exact ⟨e, he, rfl⟩
    · simp only [hc]
      exact hne

/-- C7 (witness): a registry whose camera 0 carries id 0 is returned by deserializing its
serialization, with assertions enabled. -/
theorem C7_roundtrip_witness :
    of_dict false (Sum.elim id (fun _ => (⟨0, []⟩ : Camera)))
      (Sum.elim (fun _ => (⟨0, ⟨[]⟩, "none"⟩ : CameraImage)) id)
      (as_dict Sum.inl Sum.inr (of_vectors [⟨0, [3]⟩] [⟨0, ⟨[1]⟩, "a.png"⟩])) =
        .ok (of_vectors [⟨0, [3]⟩] [⟨0, ⟨[1]⟩, "a.png"⟩]) :=
  (C7_roundtrip false Sum.inl (Sum.elim id (fun _ => (⟨0, []⟩ : Camera))) Sum.inr
    (Sum.elim (fun _ => (⟨0, ⟨[]⟩, "none"⟩ : CameraImage)) id) (fun _ => rfl) (fun _ => rfl)
    (of_vectors [⟨0, [3]⟩] [⟨0, ⟨[1]⟩, "a.png"⟩])).1 (by decide)

/-- C8 (the code at the failing input): the record holds, under key 3 of its "cameras"
sub-record, a camera whose `CameraId()` is 4. Compiled with `NDEBUG`, the constructor
returns a registry that stores this camera under key 3; with assertions enabled the same
record is rejected. -/
theorem C8_of_dict_ndebug_accepts_mismatch :
    (⟨4, [1]⟩ : Camera).CameraId ≠ 3 ∧
    of_dict true (fun d : Int × List Int => (⟨d.1, d.2⟩ : Camera))
        (fun d : Int × List Int => (⟨d.1, ⟨d.2⟩, "none"⟩ : CameraImage))
        ⟨some (StdMap.empty.insert 3 (4, [1])), none⟩ =
      .ok ⟨StdMap.empty.insert 3 ⟨4, [1]⟩, StdMap.empty⟩ ∧
    of_dict false (fun d : Int × List Int => (⟨d.1, d.2⟩ : Camera))
        (fun d : Int × List Int => (⟨d.1, ⟨d.2⟩, "none"⟩ : CameraImage))
        ⟨some (StdMap.empty.insert 3 (4, [1])), none⟩ =
      .error .assert_failed := by
  decide

/-- C9: after a successful construction from tracks and a registry, `init_cameras_` is
keyed by the registry's image ids, and so is the map returned by `GetCameras()`, also
after the values of the minimal camera layer (and the minimal lines) were replaced. -/
theorem C9_GetCameras_keys (X : Collaborators) (linetracks : List LineTrack)
    (imagecols : ImageCollection) (rec : LineReconstruction)
    (h : create X linetracks imagecols = .ok rec) :
    rec.init_cameras_.keys = imagecols.get_img_ids ∧
    (GetCameras X rec).keys = imagecols.get_img_ids ∧
    ∀ (cameras_1 : StdMap MinimalPinholeCamera) (lines_1 : List MinimalInfiniteLine3d),
      cameras_1.keys = rec.cameras_.keys →
      (GetCameras X { rec with cameras_ := cameras_1, lines_ := lines_1 }).keys =
          imagecols.get_img_ids ∧
        (GetCameras X { rec with cameras_ := cameras_1, lines_ := lines_1 }).keys =
          rec.init_cameras_.keys := by
  obtain ⟨hk1, hk2⟩ := create_keys X linetracks imagecols rec h
  refine ⟨hk1, ?_, ?_⟩
  · rw [GetCameras_keys, hk2]
  · intro cameras_1 lines_1 hkeys
    rw [GetCameras_keys, hk1]
    simp only [hkeys, hk2, and_self]

/-- C9 (witness): a registry with images 0 and 1 gives `GetCameras()` the keys 0 and 1. -/
theorem C9_GetCameras_keys_witness :
    ∃ rec, create example_collaborators []
        (of_vectors [⟨0, [3]⟩] [⟨0, ⟨[1]⟩, "a.png"⟩, ⟨0, ⟨[2]⟩, "b.png"⟩]) = .ok rec ∧
      (GetCameras example_collaborators rec).keys = [0, 1] := by
  refine ⟨_, rfl, ?_⟩
  exact (C9_GetCameras_keys example_collaborators []
    (of_vectors [⟨0, [3]⟩] [⟨0, ⟨[1]⟩, "a.png"⟩, ⟨0, ⟨[2]⟩, "b.png"⟩]) _ rfl).2.1

/-- C10: for a constructed reconstruction, also after its minimal lines and cameras were
replaced in place, `GetLines(k)` and `GetTracks(k)` return as many entries as
`init_tracks_`, and `GetTracks(k)[i]` is `init_tracks_[i]` with only the field `line`
replaced by `GetLines(k)[i]`. -/
theorem C10_GetTracks (X : Collaborators) (linetracks : List LineTrack)
    (imagecols : ImageCollection) (rec : LineReconstruction)
    (h : create X linetracks imagecols = .ok rec)
    (lines_1 : List MinimalInfiniteLine3d) (cameras_1 : StdMap MinimalPinholeCamera)
    (hlen : lines_1.length = rec.lines_.length) (k : Int) :
    ∃ lines tracks,
      GetLines X { rec with lines_ := lines_1, cameras_ := cameras_1 } k = some lines ∧
      GetTracks X { rec with lines_ := lines_1, cameras_ := cameras_1 } k = some tracks ∧
      lines.length = rec.init_tracks_.length ∧
      tracks.length = rec.init_tracks_.length ∧
      ∀ (i : Nat) (t : LineTrack), rec.init_tracks_[i]? = some t →
        ∃ l, lines[i]? = some l ∧ tracks[i]? = some { t with line := l } := by
  obtain ⟨h1, h2, _⟩ := create_spec X linetracks imagecols rec h
  have hn : lines_1.length = rec.init_tracks_.length := by
    rw [hlen, h2, h1, List.length_map]
  have hlines := GetLines_eq X { rec with lines_ := lines_1, cameras_ := cameras_1 } k
    (le_of_eq hn)
  have hlineslen : (List.zipWith
      (fun m (t : LineTrack) =>
        X.GetLineSegmentFromInfiniteLine3d (X.GetInfiniteLine m) t.line3d_list k)
      lines_1 rec.init_tracks_).length = rec.init_tracks_.length := by
    simp [hn]
  refine ⟨List.zipWith
      (fun m (t : LineTrack) =>
        X.GetLineSegmentFromInfiniteLine3d (X.GetInfiniteLine m) t.line3d_list k)
      lines_1 rec.init_tracks_,
    List.zipWith (fun (t : LineTrack) (l : Line3d) => { t with line := l }) rec.init_tracks_
      (List.zipWith
        (fun m (t : LineTrack) =>
          X.GetLineSegmentFromInfiniteLine3d (X.GetInfiniteLine m) t.line3d_list k)
        lines_1 rec.init_tracks_),
    hlines, ?_, hlineslen, ?_, ?_⟩
  · unfold GetTracks
    rw [hlines]
    simp only []
    rw [GetTracks_loop_eq _ _ _ _ (by simp [hn]) (by simp [hn])]
    simp only [List.drop_zero, hn]
    rw [List.take_length, ← hlineslen, List.take_length]
  · simp [hn]
  · intro i t hi
    have hilt : i < rec.init_tracks_.length := by
      rcases List.getElem?_eq_some.1 hi with ⟨hlt, _⟩
      exact hlt
    have hex : ∃ l, (List.zipWith
        (fun m (t : LineTrack) =>
          X.GetLineSegmentFromInfiniteLine3d (X.GetInfiniteLine m) t.line3d_list k)
        lines_1 rec.init_tracks_)[i]? = some l := by
      refine ⟨_, List.getElem?_eq_getElem ?_⟩
      rw [hlineslen]
      exact hilt
    obtain ⟨l, hl⟩ := hex
    exact ⟨l, hl, List.getElem?_zipWith_eq_some.2 ⟨t, l, hi, hl, rfl⟩⟩

/-- C10 (witness): one track over images 0 and 1; `GetTracks(0)` returns the track with
its observations and image ids and the line of `GetLines(0)`. -/
theorem C10_GetTracks_witness :
    ∃ rec lines tracks, create example_collaborators [⟨⟨[9]⟩, [0, 1], [⟨[1]⟩, ⟨[2]⟩], [⟨[5]⟩]⟩]
        (of_vectors [⟨0, [3]⟩] [⟨0, ⟨[1]⟩, "a.png"⟩, ⟨0, ⟨[2]⟩, "b.png"⟩]) = .ok rec ∧
      GetLines example_collaborators rec 0 = some lines ∧
      GetTracks example_collaborators rec 0 = some tracks ∧
      lines.length = 1 ∧ tracks.length = 1 ∧
      ∃ l, lines[0]? = some l ∧
        tracks[0]? = some ⟨l, [0, 1], [⟨[1]⟩, ⟨[2]⟩], [⟨[5]⟩]⟩ := by
  have hc : ∃ rec, create example_collaborators [⟨⟨[9]⟩, [0, 1], [⟨[1]⟩, ⟨[2]⟩], [⟨[5]⟩]⟩]
      (of_vectors [⟨0, [3]⟩] [⟨0, ⟨[1]⟩, "a.png"⟩, ⟨0, ⟨[2]⟩, "b.png"⟩]) = .ok rec :=
    ⟨_, rfl⟩
  obtain ⟨rec, hrec⟩ := hc
  obtain ⟨lines, tracks, h1, h2, h3, h4, h5⟩ :=
    C10_GetTracks example_collaborators [⟨⟨[9]⟩, [0, 1], [⟨[1]⟩, ⟨[2]⟩], [⟨[5]⟩]⟩]
      (of_vectors [⟨0, [3]⟩] [⟨0, ⟨[1]⟩, "a.png"⟩, ⟨0, ⟨[2]⟩, "b.png"⟩]) rec hrec
      rec.lines_ rec.cameras_ rfl 0
  have htr := (create_spec _ _ _ rec hrec).1
  rw [htr] at h3 h4 h5
  exact ⟨rec, lines, tracks, hrec, h1, h2, h3, h4, h5 0 _ rfl⟩

/-- C11: for a constructed reconstruction, also after its minimal lines and cameras were
replaced in place, `GetLines(k)[i]` is the external segment extraction applied to the
current infinite line of `lines_[i]`, the 3D observations of track `i` and `k`; on the
fresh reconstruction `lines_[i]` is the minimal line derived from the line of input track
`i`. -/
theorem C11_GetLines_entries (X : Collaborators) (linetracks : List LineTrack)
    (imagecols : ImageCollection) (rec : LineReconstruction)
    (h : create X linetracks imagecols = .ok rec)
    (lines_1 : List MinimalInfiniteLine3d) (cameras_1 : StdMap MinimalPinholeCamera)
    (hlen : lines_1.length = rec.lines_.length) (k : Int) :
    (∃ lines, GetLines X { rec with lines_ := lines_1, cameras_ := cameras_1 } k = some lines ∧
      ∀ (i : Nat) (m : MinimalInfiniteLine3d) (observed : List Line3d),
        lines_1[i]? = some m → GetLine3ds rec i = some observed →
        lines[i]? =
          some (X.GetLineSegmentFromInfiniteLine3d (X.GetInfiniteLine m) observed k)) ∧
    (∀ (i : Nat) (t : LineTrack), linetracks[i]? = some t →
      rec.lines_[i]? = some (X.to_minimal_line t.line) ∧
      GetLine3ds rec i = some t.line3d_list) ∧
    (∃ lines, GetLines X rec k = some lines ∧
      ∀ (i : Nat) (t : LineTrack), linetracks[i]? = some t →
        lines[i]? = some (X.GetLineSegmentFromInfiniteLine3d
          (X.GetInfiniteLine (X.to_minimal_line t.line)) t.line3d_list k)) := by
  obtain ⟨h1, h2, _⟩ := create_spec X linetracks imagecols rec h
  have hn : lines_1.length = rec.init_tracks_.length := by
    rw [hlen, h2, h1, List.length_map]
  have hfresh : ∀ (i : Nat) (t : LineTrack), linetracks[i]? = some t →
      rec.lines_[i]? = some (X.to_minimal_line t.line) ∧
      GetLine3ds rec i = some t.line3d_list := by
    intro i t hi
    constructor
    · rw [h2, List.getElem?_map, hi]
      rfl
    · rw [GetLine3ds_eq_some_iff]
      exact ⟨t, by rw [h1]; exact hi, rfl⟩
  refine ⟨⟨_, GetLines_eq X { rec with lines_ := lines_1, cameras_ := cameras_1 } k
    (le_of_eq hn), ?_⟩, hfresh, ⟨_, GetLines_eq X rec k ?_, ?_⟩⟩
  · intro i m observed hm hobs
    obtain ⟨t, ht, hto⟩ := (GetLine3ds_eq_some_iff rec i observed).1 hobs
    rw [List.getElem?_zipWith_eq_some]
    exact ⟨m, t, hm, ht, by rw [hto]⟩
  · rw [h2, h1, List.length_map]
  · intro i t hi
    obtain ⟨hl, hobs⟩ := hfresh i t hi
    obtain ⟨t1, ht1, hto⟩ := (GetLine3ds_eq_some_iff rec i _).1 hobs
    rw [List.getElem?_zipWith_eq_some]
    exact ⟨_, t1, hl, ht1, by rw [hto]⟩

/-- C11 (witness): one track with one 3D observation; `GetLines(2)` holds the segment
extracted from the minimal line of that track, its observation and 2. -/
theorem C11_GetLines_entries_witness :
    ∃ rec lines, create example_collaborators [⟨⟨[9]⟩, [0, 1], [⟨[1]⟩, ⟨[2]⟩], [⟨[5]⟩]⟩]
        (of_vectors [⟨0, [3]⟩] [⟨0, ⟨[1]⟩, "a.png"⟩, ⟨0, ⟨[2]⟩, "b.png"⟩]) = .ok rec ∧
      GetLines example_collaborators rec 2 = some lines ∧
      lines[0]? = some (example_collaborators.GetLineSegmentFromInfiniteLine3d
        (example_collaborators.GetInfiniteLine (example_collaborators.to_minimal_line ⟨[9]⟩))
        [⟨[5]⟩] 2) := by
  have hc : ∃ rec, create example_collaborators [⟨⟨[9]⟩, [0, 1], [⟨[1]⟩, ⟨[2]⟩], [⟨[5]⟩]⟩]
      (of_vectors [⟨0, [3]⟩] [⟨0, ⟨[1]⟩, "a.png"⟩, ⟨0, ⟨[2]⟩, "b.png"⟩]) = .ok rec :=
    ⟨_, rfl⟩
  obtain ⟨rec, hrec⟩ := hc
  obtain ⟨_, _, lines, h1, h2⟩ :=
    C11_GetLines_entries example_collaborators [⟨⟨[9]⟩, [0, 1], [⟨[1]⟩, ⟨[2]⟩], [⟨[5]⟩]⟩]
      (of_vectors [⟨0, [3]⟩] [⟨0, ⟨[1]⟩, "a.png"⟩, ⟨0, ⟨[2]⟩, "b.png"⟩]) rec hrec
      rec.lines_ rec.cameras_ rfl 2
  exact ⟨rec, lines, hrec, h1, h2 0 _ rfl⟩

/-- C12: when construction from a list of `N` views succeeds, the image ids are
`0..N-1`, image `i` is the record converted from view `i` and carries the camera id of
that view, the camera keys are exactly the camera ids occurring in the list, every
stored camera is a camera of the list stored under its own id, and I1 holds. -/
theorem C12_of_camviews_result (camviews : List CameraView) (r : ImageCollection)
    (h : of_camviews camviews = .ok r) :
    r.get_img_ids = (List.range camviews.length).map (fun (i : Nat) => (i : Int)) ∧
    (∀ (i : Nat) (v : CameraView), camviews[i]? = some v →
      r.camimage (i : Int) = .ok (CameraImage.of_camview v) ∧
      (CameraImage.of_camview v).cam_id = v.cam.CameraId) ∧
    (∀ k, k ∈ r.get_cam_ids ↔ ∃ v ∈ camviews, v.cam.CameraId = k) ∧
    (∀ k c, r.cam k = .ok c ↔ (c.CameraId = k ∧ ∃ v ∈ camviews, v.cam = c)) ∧
    I1 r := by
  obtain ⟨_, hcams, himgs⟩ := of_camviews_spec camviews r h
  have hkeys : ∀ k, k ∈ r.cameras.keys ↔ ∃ v ∈ camviews, v.cam.CameraId = k := by
    intro k
    rw [StdMap.mem_keys_iff]
    constructor
    · rintro ⟨c, hc⟩
      obtain ⟨hk, v, hv, hvc⟩ := (hcams k c).1 hc
      exact ⟨v, hv, by rw [hvc, hk]⟩
    · rintro ⟨v, hv, hk⟩
      exact ⟨v.cam, (hcams k v.cam).2 ⟨hk, v, hv, rfl⟩⟩
  refine ⟨?_, ?_, hkeys, ?_, ?_⟩
  · show r.images.keys = _
    rw [himgs, init_from_vector_keys, List.length_map]
  · intro i v hi
    refine ⟨?_, rfl⟩
    rw [camimage_eq_ok_iff, himgs, mem_init_from_vector_entries, List.getElem?_map, hi]
    rfl
  · intro k c
    rw [cam_eq_ok_iff]
    exact hcams k c
  · rw [I1_iff_values, himgs, init_from_vector_values]
    intro im him
    obtain ⟨v, hv, rfl⟩ := List.mem_map.1 him
    exact (hkeys _).2 ⟨v, hv, rfl⟩

/-- C12 (witness): three views with camera ids 5, 1, 5 give image ids 0, 1, 2 and a
registry satisfying I1. -/
theorem C12_of_camviews_result_witness :
    ∃ r, of_camviews [⟨⟨5, [1]⟩, ⟨[]⟩, "a.png"⟩, ⟨⟨1, []⟩, ⟨[]⟩, "b.png"⟩,
        ⟨⟨5, [1]⟩, ⟨[7]⟩, "c.png"⟩] = .ok r ∧
      r.get_img_ids = [0, 1, 2] ∧ I1 r := by
  have hc : ∃ r, of_camviews [⟨⟨5, [1]⟩, ⟨[]⟩, "a.png"⟩, ⟨⟨1, []⟩, ⟨[]⟩, "b.png"⟩,
      ⟨⟨5, [1]⟩, ⟨[7]⟩, "c.png"⟩] = .ok r := ⟨_, rfl⟩
  obtain ⟨r, hr⟩ := hc
  have h := C12_of_camviews_result _ r hr
  exact ⟨r, hr, h.1, h.2.2.2.2⟩

/-- C13: `get_cam_ids()` and `get_img_ids()` are strictly ascending and hold exactly the
keys of `cameras` and `images`; position by position, `get_cameras()` holds
`cam(get_cam_ids()[i])`, `get_images()` holds `camimage(get_img_ids()[i])`,
`get_image_list()` (which always returns) holds `image_name(get_img_ids()[i])` and, when
it returns, `get_camviews()` holds `camview(get_img_ids()[i])`. -/
theorem C13_bulk_getters (r : ImageCollection) :
    r.get_cam_ids.Pairwise (fun a b => a < b) ∧
    r.get_img_ids.Pairwise (fun a b => a < b) ∧
    (∀ k, k ∈ r.get_cam_ids ↔ ∃ c, (k, c) ∈ r.cameras.entries) ∧
    (∀ k, k ∈ r.get_img_ids ↔ ∃ im, (k, im) ∈ r.images.entries) ∧
    (r.get_cameras.length = r.get_cam_ids.length ∧
      ∀ (i : Nat) (k : Int), r.get_cam_ids[i]? = some k →
        ∃ c, r.get_cameras[i]? = some c ∧ r.cam k = .ok c) ∧
    (r.get_images.length = r.get_img_ids.length ∧
      ∀ (i : Nat) (k : Int), r.get_img_ids[i]? = some k →
        ∃ im, r.get_images[i]? = some im ∧ r.camimage k = .ok im) ∧
    (∃ names, r.get_image_list = .ok names ∧ names.length = r.get_img_ids.length ∧
      ∀ (i : Nat) (k : Int), r.get_img_ids[i]? = some k →
        ∃ s, names[i]? = some s ∧ r.image_name k = .ok s) ∧
    (∀ views, r.get_camviews = .ok views → views.length = r.get_img_ids.length ∧
      ∀ (i : Nat) (k : Int), r.get_img_ids[i]? = some k →
        ∃ v, views[i]? = some v ∧ r.camview k = .ok v) := by
  refine ⟨r.cameras.ascending, r.images.ascending, r.cameras.mem_keys_iff,
    r.images.mem_keys_iff, ⟨by simp [get_cameras, get_cam_ids], ?_⟩,
    ⟨by simp [get_images, get_img_ids], ?_⟩, ?_, ?_⟩
  · intro i k hi
    obtain ⟨c, hc, hv⟩ := getElem?_map_fst_snd r.cameras.entries i k hi
    exact ⟨c, hv, (cam_eq_ok_iff r k c).2 (List.mem_iff_getElem?.2 ⟨i, hc⟩)⟩
  · intro i k hi
    obtain ⟨im, him, hv⟩ := getElem?_map_fst_snd r.images.entries i k hi
    exact ⟨im, hv, (camimage_eq_ok_iff r k im).2 (List.mem_iff_getElem?.2 ⟨i, him⟩)⟩
  · have hall : ∀ e ∈ r.images.entries, ∃ s, r.image_name e.1 = .ok s := by
      intro e he
      exact ⟨e.2.image_name, (image_name_eq_ok_iff r e.1 _).2 ⟨e.2, he, rfl⟩⟩
    obtain ⟨names, hnames⟩ := collect_ok_of_forall r.image_name r.images.entries hall
    obtain ⟨hlen, hget⟩ := collect_ok_getElem? r.image_name r.images.entries names hnames
    refine ⟨names, hnames, by simp [hlen, get_img_ids], ?_⟩
    intro i k hi
    obtain ⟨im, him, _⟩ := getElem?_map_fst_snd r.images.entries i k hi
    exact hget i (k, im) him
  · intro views hviews
    obtain ⟨hlen, hget⟩ := collect_ok_getElem? r.camview r.images.entries views hviews
    refine ⟨by simp [hlen, get_img_ids], ?_⟩
    intro i k hi
    obtain ⟨im, him, _⟩ := getElem?_map_fst_snd r.images.entries i k hi
    exact hget i (k, im) him

/-- C13 (witness): on a registry with two images, `get_camviews()` returns and its entry
at position 1 is `camview(1)`. -/
theorem C13_bulk_getters_witness :
    ∃ views v, (of_vectors [⟨0, [3]⟩] [⟨0, ⟨[1]⟩, "a.png"⟩, ⟨0, ⟨[2]⟩, "b.png"⟩]).get_camviews
        = .ok views ∧ views[1]? = some v ∧
      (of_vectors [⟨0, [3]⟩] [⟨0, ⟨[1]⟩, "a.png"⟩, ⟨0, ⟨[2]⟩, "b.png"⟩]).camview 1 = .ok v := by
  have hc : ∃ views,
      (of_vectors [⟨0, [3]⟩] [⟨0, ⟨[1]⟩, "a.png"⟩, ⟨0, ⟨[2]⟩, "b.png"⟩]).get_camviews
        = .ok views := ⟨_, rfl⟩
  obtain ⟨views, hviews⟩ := hc
  obtain ⟨v, hv, hcv⟩ :=
    ((C13_bulk_getters (of_vectors [⟨0, [3]⟩] [⟨0, ⟨[1]⟩, "a.png"⟩, ⟨0, ⟨[2]⟩, "b.png"⟩])
      ).2.2.2.2.2.2.2 views hviews).2 1 1 rfl
  exact ⟨views, v, hviews, hv, hcv⟩

/-- C14: the registry built from a list of `n` cameras and a list of `m` images has
`get_cam_ids() = [0..n-1]` and `get_img_ids() = [0..m-1]`, `cam(i)` is camera `i` of the
list, `camimage(j)` is image `j` of the list, and `exist_cam(i)` holds exactly for
`0 <= i < n`. -/
theorem C14_of_vectors (cams : List Camera) (imgs : List CameraImage) :
    (of_vectors cams imgs).get_cam_ids =
      (List.range cams.length).map (fun (i : Nat) => (i : Int)) ∧
    (of_vectors cams imgs).get_img_ids =
      (List.range imgs.length).map (fun (i : Nat) => (i : Int)) ∧
    (∀ (i : Nat) (c : Camera), cams[i]? = some c →
      (of_vectors cams imgs).cam (i : Int) = .ok c) ∧
    (∀ (j : Nat) (im : CameraImage), imgs[j]? = some im →
      (of_vectors cams imgs).camimage (j : Int) = .ok im) ∧
    (∀ i : Int, (of_vectors cams imgs).exist_cam i = true ↔
      (0 ≤ i ∧ i < (cams.length : Int))) := by
  refine ⟨init_from_vector_keys cams, init_from_vector_keys imgs, ?_, ?_, ?_⟩
  · intro i c hi
    rw [cam_eq_ok_iff]
    exact (mem_init_from_vector_entries cams i c).2 hi
  · intro j im hj
    rw [camimage_eq_ok_iff]
    exact (mem_init_from_vector_entries imgs j im).2 hj
  · intro i
    rw [exist_cam_iff]
    exact mem_init_from_vector_keys cams i

/-- C14 (witness): two cameras and three images referring to camera ids 0, 0, 1 give
camera ids 0, 1, image ids 0, 1, 2, `exist_cam(1)` true and `exist_cam(2)` false. -/
theorem C14_of_vectors_witness :
    (of_vectors [⟨0, [3]⟩, ⟨1, [4]⟩]
      [⟨0, ⟨[1]⟩, "a.png"⟩, ⟨0, ⟨[2]⟩, "b.png"⟩, ⟨1, ⟨[3]⟩, "c.png"⟩]).get_cam_ids = [0, 1] ∧
    (of_vectors [⟨0, [3]⟩, ⟨1, [4]⟩]
      [⟨0, ⟨[1]⟩, "a.png"⟩, ⟨0, ⟨[2]⟩, "b.png"⟩, ⟨1, ⟨[3]⟩, "c.png"⟩]).get_img_ids
        = [0, 1, 2] ∧
    (of_vectors [⟨0, [3]⟩, ⟨1, [4]⟩]
      [⟨0, ⟨[1]⟩, "a.png"⟩, ⟨0, ⟨[2]⟩, "b.png"⟩, ⟨1, ⟨[3]⟩, "c.png"⟩]).exist_cam 1 = true ∧
    (of_vectors [⟨0, [3]⟩, ⟨1, [4]⟩]
      [⟨0, ⟨[1]⟩, "a.png"⟩, ⟨0, ⟨[2]⟩, "b.png"⟩, ⟨1, ⟨[3]⟩, "c.png"⟩]).exist_cam 2 = false :=
  ⟨(C14_of_vectors [⟨0, [3]⟩, ⟨1, [4]⟩]
      [⟨0, ⟨[1]⟩, "a.png"⟩, ⟨0, ⟨[2]⟩, "b.png"⟩, ⟨1, ⟨[3]⟩, "c.png"⟩]).1,
    (C14_of_vectors [⟨0, [3]⟩, ⟨1, [4]⟩]
      [⟨0, ⟨[1]⟩, "a.png"⟩, ⟨0, ⟨[2]⟩, "b.png"⟩, ⟨1, ⟨[3]⟩, "c.png"⟩]).2.1,
    ((C14_of_vectors [⟨0, [3]⟩, ⟨1, [4]⟩]
      [⟨0, ⟨[1]⟩, "a.png"⟩, ⟨0, ⟨[2]⟩, "b.png"⟩, ⟨1, ⟨[3]⟩, "c.png"⟩]).2.2.2.2 1).2
      ⟨by decide, by decide⟩,
    Bool.eq_false_iff.2 (fun hne =>
      absurd (((C14_of_vectors [⟨0, [3]⟩, ⟨1, [4]⟩]
        [⟨0, ⟨[1]⟩, "a.png"⟩, ⟨0, ⟨[2]⟩, "b.png"⟩, ⟨1, ⟨[3]⟩, "c.png"⟩]).2.2.2.2 2).1 hne).2
        (by decide))⟩

/-- C15: for a camera key `id`, `change_camera(id, c)` succeeds, afterwards `cam(id)` is
`c`, every other camera entry and the camera keys are as before and `images` is
untouched, whatever the images refer to; for an image key `id`, `change_image(id, im)`
succeeds, afterwards `camimage(id)` is `im`, every other image entry and the image keys
are as before and `cameras` is untouched. -/
theorem C15_change_frame (r : ImageCollection) (id : Int) :
    (id ∈ r.cameras.keys → ∀ c, ∃ r1, r.change_camera id c = (.ok (), r1) ∧
      r1.cam id = .ok c ∧
      (∀ k c1, k ≠ id → ((k, c1) ∈ r1.cameras.entries ↔ (k, c1) ∈ r.cameras.entries)) ∧
      r1.cameras.keys = r.cameras.keys ∧ r1.images = r.images) ∧
    (id ∈ r.images.keys → ∀ im, ∃ r1, r.change_image id im = (.ok (), r1) ∧
      r1.camimage id = .ok im ∧
      (∀ k im1, k ≠ id → ((k, im1) ∈ r1.images.entries ↔ (k, im1) ∈ r.images.entries)) ∧
      r1.images.keys = r.images.keys ∧ r1.cameras = r.cameras) := by
  constructor
  · intro hid c
    have hex := (r.exist_cam_iff id).2 hid
    refine ⟨{ r with cameras := r.cameras.assign id c }, ?_, ?_, ?_, ?_, rfl⟩
    · unfold change_camera
      rw [if_pos hex]
    · rw [cam_eq_ok_iff]
      exact (r.cameras.mem_assign_of_mem id c hid id c).2 (Or.inl ⟨rfl, rfl⟩)
    · intro k c1 hk
      show (k, c1) ∈ (r.cameras.assign id c).entries ↔ _
      rw [r.cameras.mem_assign_of_mem id c hid k c1]
      simp [hk]
    · exact r.cameras.keys_assign_of_mem id c hid
  · intro hid im
    have hex := (r.exist_image_iff id).2 hid
    refine ⟨{ r with images := r.images.assign id im }, ?_, ?_, ?_, ?_, rfl⟩
    · unfold change_image
      rw [if_pos hex]
    · rw [camimage_eq_ok_iff]
      exact (r.images.mem_assign_of_mem id im hid id im).2 (Or.inl ⟨rfl, rfl⟩)
    · intro k im1 hk
      show (k, im1) ∈ (r.images.assign id im).entries ↔ _
      rw [r.images.mem_assign_of_mem id im hid k im1]
      simp [hk]
    · exact r.images.keys_assign_of_mem id im hid

/-- C15 (witness): on a registry with cameras 0 and 1, `change_camera(1, c)` succeeds,
`cam(1)` is `c` afterwards and the images are as before. -/
theorem C15_change_frame_witness :
    ∃ r1, (of_vectors [⟨0, [3]⟩, ⟨1, [4]⟩] [⟨1, ⟨[1]⟩, "a.png"⟩]).change_camera 1 ⟨8, [5]⟩
        = (.ok (), r1) ∧
      r1.cam 1 = .ok ⟨8, [5]⟩ ∧
      r1.images = (of_vectors [⟨0, [3]⟩, ⟨1, [4]⟩] [⟨1, ⟨[1]⟩, "a.png"⟩]).images := by
  obtain ⟨r1, h1, h2, _, _, h5⟩ :=
    (C15_change_frame (of_vectors [⟨0, [3]⟩, ⟨1, [4]⟩] [⟨1, ⟨[1]⟩, "a.png"⟩]) 1).1
      (by decide) ⟨8, [5]⟩
  exact ⟨r1, h1, h2, h5⟩

/-- C16: copy construction from any registry, whether or not it satisfies I1, returns a
registry whose `cameras` and `images` equal those of the source. -/
theorem C16_copy (r : ImageCollection) : copy r = .ok r := by
  unfold copy
  have hcam : copy_cameras r r.get_cam_ids StdMap.empty = .ok r.cameras := by
    unfold get_cam_ids
    rw [copy_cameras_eq_foldl r r.cameras.entries (fun _ he => he),
      foldl_insert_empty_eq_mapValues, mapValues_id]
  have himg : copy_images r r.get_img_ids StdMap.empty = .ok r.images := by
    unfold get_img_ids
    rw [copy_images_eq_foldl r r.images.entries (fun _ he => he),
      foldl_insert_empty_eq_mapValues, mapValues_id]
  simp only [hcam, himg]

/-- C17: `IsUndistorted()` is true exactly when every camera of the camera mapping
reports `IsUndistorted()`; it is true for a registry without cameras and does not depend
on the image mapping. -/
theorem C17_IsUndistorted (camera_is_undistorted : Camera → Bool) (r : ImageCollection) :
    (IsUndistorted camera_is_undistorted r = true ↔
      ∀ c ∈ r.get_cameras, camera_is_undistorted c = true) ∧
    (∀ images : StdMap CameraImage,
      IsUndistorted camera_is_undistorted ⟨StdMap.empty, images⟩ = true) ∧
    (∀ images : StdMap CameraImage,
      IsUndistorted camera_is_undistorted { r with images := images } =
        IsUndistorted camera_is_undistorted r) := by
  refine ⟨?_, fun _ => rfl, fun _ => rfl⟩
  unfold IsUndistorted get_cameras
  rw [IsUndistorted_loop_iff]
  simp only [List.mem_map, forall_exists_index, and_imp]
  constructor
  · intro h c e he hec
    rw [← hec]
    exact h e he
  · intro h e he
    exact h e.2 e he rfl

/-- C18: when construction from a list of views succeeds, `get_camviews()` of the
registry returns the input list, and `camview(i)` is view `i`. -/
theorem C18_get_camviews_of_camviews (camviews : List CameraView) (r : ImageCollection)
    (h : of_camviews camviews = .ok r) :
    r.get_camviews = .ok camviews ∧
    ∀ (i : Nat) (v : CameraView), camviews[i]? = some v → r.camview (i : Int) = .ok v := by
  refine ⟨?_, of_camviews_camview camviews r h⟩
  obtain ⟨_, _, himgs⟩ := of_camviews_spec camviews r h
  have hentry : ∀ (i : Nat) (e : Int × CameraImage), r.images.entries[i]? = some e →
      ∃ v, camviews[i]? = some v ∧ e.1 = (i : Int) := by
    intro i e he
    rw [himgs, init_from_vector_getElem?, List.getElem?_map] at he
    cases hv : camviews[i]? with
    | none => simp [hv] at he
    | some v =>
      simp only [hv, Option.map_some', Option.some.injEq] at he
      exact ⟨v, rfl, by rw [← he]⟩
  have hall : ∀ e ∈ r.images.entries, ∃ a, r.camview e.1 = .ok a := by
    intro e he
    obtain ⟨i, hi⟩ := List.mem_iff_getElem?.1 he
    obtain ⟨v, hv, hk⟩ := hentry i e hi
    exact ⟨v, by rw [hk]; exact of_camviews_camview camviews r h i v hv⟩
  obtain ⟨out, hout⟩ := collect_ok_of_forall r.camview r.images.entries hall
  obtain ⟨hlen, hget⟩ := collect_ok_getElem? r.camview r.images.entries out hout
  have hlen2 : r.images.entries.length = camviews.length := by
    rw [himgs, init_from_vector_entries]
    simp
  have hout_eq : out = camviews := by
    apply List.ext_getElem?
    intro i
    cases hv : camviews[i]? with
    | none =>
      rw [List.getElem?_eq_none_iff] at hv ⊢
      omega
    | some v =>
      have hlt : i < r.images.entries.length := by
        rw [hlen2]
        exact (List.getElem?_eq_some.1 hv).1
      obtain ⟨a, ha, hcv⟩ := hget i _ (List.getElem?_eq_getElem hlt)
      obtain ⟨v1, hv1, hk⟩ := hentry i _ (List.getElem?_eq_getElem hlt)
      rw [hk, of_camviews_camview camviews r h i v hv] at hcv
      cases hcv
      exact ha
  unfold get_camviews
  rw [hout, hout_eq]

/-- C18 (witness): three views, two of them sharing camera 5, are returned by
`get_camviews()` of the registry built from them. -/
theorem C18_get_camviews_of_camviews_witness :
    ∃ r, of_camviews [⟨⟨5, [1]⟩, ⟨[]⟩, "a.png"⟩, ⟨⟨1, []⟩, ⟨[]⟩, "b.png"⟩,
        ⟨⟨5, [1]⟩, ⟨[7]⟩, "c.png"⟩] = .ok r ∧
      r.get_camviews = .ok [⟨⟨5, [1]⟩, ⟨[]⟩, "a.png"⟩, ⟨⟨1, []⟩, ⟨[]⟩, "b.png"⟩,
        ⟨⟨5, [1]⟩, ⟨[7]⟩, "c.png"⟩] := by
  have hc : ∃ r, of_camviews [⟨⟨5, [1]⟩, ⟨[]⟩, "a.png"⟩, ⟨⟨1, []⟩, ⟨[]⟩, "b.png"⟩,
      ⟨⟨5, [1]⟩, ⟨[7]⟩, "c.png"⟩] = .ok r := ⟨_, rfl⟩
  obtain ⟨r, hr⟩ := hc
  exact ⟨r, hr, (C18_get_camviews_of_camviews _ r hr).1⟩

/-- C19: for every list of tracks, constructing a reconstruction succeeds exactly when
the registry satisfies I1, whatever image ids the tracks refer to; on success `lines_`
has the length of the input tracks and `init_cameras_` holds `registry.camview(id)` under
every image id. -/
theorem C19_create (X : Collaborators) (linetracks : List LineTrack)
    (imagecols : ImageCollection) :
    ((∃ rec, create X linetracks imagecols = .ok rec) ↔ I1 imagecols) ∧
    (∀ rec, create X linetracks imagecols = .ok rec →
      rec.lines_.length = linetracks.length ∧
      ∀ id ∈ imagecols.get_img_ids, ∃ v, imagecols.camview id = .ok v ∧
        rec.init_cameras_.at_ id = .ok v) := by
  constructor
  · rw [create_isOk_iff, I1_iff_camview]
  · intro rec hrec
    obtain ⟨_, h2, views, hall, e1, _⟩ := create_spec X linetracks imagecols rec hrec
    refine ⟨by rw [h2, List.length_map], ?_⟩
    intro id hid
    obtain ⟨v, hv, hcv⟩ := forall₂_mem_zip hall id hid
    refine ⟨v, hcv, ?_⟩
    rw [StdMap.at_eq_ok_iff, e1]
    exact hv

/-- C19 (witness): a track that refers to image id 42, which the registry lacks, does not
keep the construction from succeeding on a registry satisfying I1, and `init_cameras_`
holds `camview(1)` under id 1. -/
theorem C19_create_witness :
    ∃ rec v, create example_collaborators [⟨⟨[9]⟩, [0, 42], [⟨[1]⟩, ⟨[2]⟩], [⟨[5]⟩]⟩]
        (of_vectors [⟨0, [3]⟩] [⟨0, ⟨[1]⟩, "a.png"⟩, ⟨0, ⟨[2]⟩, "b.png"⟩]) = .ok rec ∧
      rec.lines_.length = 1 ∧
      (of_vectors [⟨0, [3]⟩] [⟨0, ⟨[1]⟩, "a.png"⟩, ⟨0, ⟨[2]⟩, "b.png"⟩]).camview 1 = .ok v ∧
      rec.init_cameras_.at_ 1 = .ok v := by
  obtain ⟨rec, hrec⟩ :=
    (C19_create example_collaborators [⟨⟨[9]⟩, [0, 42], [⟨[1]⟩, ⟨[2]⟩], [⟨[5]⟩]⟩]
      (of_vectors [⟨0, [3]⟩] [⟨0, ⟨[1]⟩, "a.png"⟩, ⟨0, ⟨[2]⟩, "b.png"⟩])).1.2 (by decide)
  obtain ⟨hlen, hviews⟩ :=
    (C19_create example_collaborators [⟨⟨[9]⟩, [0, 42], [⟨[1]⟩, ⟨[2]⟩], [⟨[5]⟩]⟩]
      (of_vectors [⟨0, [3]⟩] [⟨0, ⟨[1]⟩, "a.png"⟩, ⟨0, ⟨[2]⟩, "b.png"⟩])).2 rec hrec
  obtain ⟨v, hv1, hv2⟩ := hviews 1 (by decide)
  exact ⟨rec, v, hrec, hlen, hv1, hv2⟩

/-- C20: two reconstruction states with equal `init_tracks_` and `lines_` return equal
`GetLines(k)`, whatever their `cameras_` and `init_cameras_` hold and whether or not a
track refers to an image id absent from `cameras_`; the result is the same for every
content of the local map that the defaulting accesses work on. `GetLines` is a function
of the reconstruction that returns only the lines. -/
theorem C20_GetLines_camera_independent (X : Collaborators) (rec1 rec2 : LineReconstruction)
    (k : Int) (htracks : rec1.init_tracks_ = rec2.init_tracks_)
    (hlines : rec1.lines_ = rec2.lines_) :
    GetLines X rec1 k = GetLines X rec2 k ∧
    ∀ cameras : StdMap CameraView,
      GetLines_loop X rec1 k rec1.lines_ 0 cameras = GetLines X rec2 k := by
  constructor
  · unfold GetLines
    rw [hlines]
    exact GetLines_loop_congr X rec1 rec2 k htracks _ 0 _ _
  · intro cameras
    unfold GetLines
    rw [hlines]
    exact GetLines_loop_congr X rec1 rec2 k htracks _ 0 _ _

/-- C20 (witness): a track refers to image id 42, which is no key of `cameras_`; the
defaulting access enters 42 into the local map only, and `GetLines(0)` is the same after
`cameras_` is emptied. -/
theorem C20_GetLines_camera_independent_witness :
    ∃ rec, create example_collaborators [⟨⟨[9]⟩, [0, 42], [⟨[1]⟩, ⟨[2]⟩], [⟨[5]⟩]⟩]
        (of_vectors [⟨0, [3]⟩] [⟨0, ⟨[1]⟩, "a.png"⟩, ⟨0, ⟨[2]⟩, "b.png"⟩]) = .ok rec ∧
      (42 : Int) ∉ rec.cameras_.keys ∧
      (42 : Int) ∈ (gather_views example_collaborators.default_camview [0, 42]
        (GetCameras example_collaborators rec) []).1.keys ∧
      GetLines example_collaborators rec 0 =
        GetLines example_collaborators { rec with cameras_ := StdMap.empty } 0 := by
  refine ⟨_, rfl, by decide, by decide, ?_⟩
  exact (C20_GetLines_camera_independent example_collaborators _ _ 0 rfl rfl).1

end Limap
